import Mathlib

/-!
Verification development for the DIYAgent research-job pipeline.

The Python sources are shallowly embedded: strings become `List Char`,
`async` collaborator calls become explicit oracles (`Except`-valued
functions), the in-memory status dictionary becomes an association list,
and the cooperative scheduler becomes an explicit completion schedule.
All definitions are executable so concrete runs can be checked by
`decide` / `rfl`.

Sections (definitions first, theorems at the end of the file):
  1. string prelude
  2. rate-limiter simulation (src/agents/search.py, aiolimiter gate)
  3. URL sanitizer (src/util/url_sanitizer.py) with models of the
     Python stdlib helpers it calls (urlsplit, urlunsplit, parse_qsl,
     urlencode, quote_plus, unquote_plus)
  4. shopping-list merge (src/agents/writer.py)
  5. search fan-out (src/agents/search.py, perform_searches)
  6. retry/fallback executors (_invoke_standard_search,
     _invoke_product_search)
  7. job pipeline (src/orchestrator/pipeline.py, status store)
-/

/-! ## 1. String prelude: Python-style helpers over `List Char` -/

abbrev Str := List Char

/-- Conversion from a Lean string literal to the embedding's string type. -/
def str (s : String) : Str := s.toList

/-- ASCII lower-casing, modelling `str.lower` on the ASCII fragment. -/
def lowerAscii (s : Str) : Str := s.map Char.toLower

/-- ASCII upper-casing, modelling `str.upper` on the ASCII fragment. -/
def upperAscii (s : Str) : Str := s.map Char.toUpper

/-- Boolean prefix test: `startsWithB pat s` iff `s` starts with `pat`. -/
def startsWithB : Str → Str → Bool
  | [], _ => true
  | _ :: _, [] => false
  | p :: ps, c :: cs => p = c && startsWithB ps cs

/-- Boolean suffix test: `endsWithB pat s` iff `s` ends with `pat`. -/
def endsWithB (pat s : Str) : Bool := startsWithB pat.reverse s.reverse

/-- Substring test, modelling Python's `pat in s`. -/
def containsSub (pat : Str) : Str → Bool
  | [] => startsWithB pat []
  | c :: cs => startsWithB pat (c :: cs) || containsSub pat cs

/-- Whitespace characters stripped by `str.strip` (ASCII fragment). -/
def pyIsSpace (c : Char) : Bool :=
  c = ' ' || c = '\t' || c = '\n' || c = '\x0d' || c = '\x0b' || c = '\x0c'

/-- Python `str.strip`: drop leading and trailing whitespace. -/
def pyStrip (s : Str) : Str :=
  ((s.dropWhile pyIsSpace).reverse.dropWhile pyIsSpace).reverse

/-- Split at the first occurrence of `sep`; `none` if absent
(models `str.split(sep, 1)`). -/
def splitFirst (sep : Char) : Str → Str × Option Str
  | [] => ([], none)
  | c :: cs =>
    if c = sep then ([], some cs)
    else
      let r := splitFirst sep cs
      (c :: r.1, r.2)

/-- Full split on a separator character (models `str.split(sep)`). -/
def splitAll (sep : Char) : Str → List Str
  | [] => [[]]
  | c :: cs =>
    match splitAll sep cs with
    | [] => [[]]
    | h :: t => if c = sep then [] :: h :: t else (c :: h) :: t

/-- Join a list of strings with a separator (models `sep.join(parts)`). -/
def joinWith (sep : Str) : List Str → Str
  | [] => []
  | [p] => p
  | p :: ps => p ++ sep ++ joinWith sep ps

/-- Concat-map over lists (kept local to avoid library version drift). -/
def cmap (f : α → List β) : List α → List β
  | [] => []
  | a :: l => f a ++ cmap f l

/-! ## 2. Rate-limiter simulation

`perform_searches` builds `AsyncLimiter(max(1, MAX_CONCURRENCY), time_period=1)`
(aiolimiter) and every search call runs inside `async with limiter:`.
aiolimiter's `AsyncLimiter` is a leaky bucket: an acquisition succeeds as
soon as `level + 1 <= max_rate`, where `level` drains at rate
`max_rate / time_period`; leaving the `async with` block releases nothing.
We simulate this in discrete ticks of length `time_period / max_rate`, so
the bucket drains exactly one unit per tick.  `cap` is `max_rate`, `dur`
is the duration of one external call measured in ticks, `waiting` are
fan-out tasks that have not yet acquired, `running` holds the remaining
durations of in-flight calls (a call is in flight from acquisition to
completion; the limiter is never told about completion). -/

structure LimiterSim where
  level : Nat
  waiting : Nat
  running : List Nat
  maxInFlight : Nat
deriving DecidableEq, Repr

/-- Fan-out start: all `m` tasks request the limiter at once; the bucket
starts empty, so `min m cap` acquisitions succeed immediately. -/
def limiterInit (cap dur m : Nat) : LimiterSim :=
  let k := min m cap
  { level := k, waiting := m - k
    running := List.replicate k dur, maxInFlight := k }

/-- One tick: the bucket drains one unit, running calls progress (finished
calls leave the in-flight set), then waiting tasks acquire greedily while
`level + 1 <= cap`. -/
def limiterStep (cap dur : Nat) (s : LimiterSim) : LimiterSim :=
  let level := s.level - 1
  let running := (s.running.map (· - 1)).filter (0 < ·)
  let k := min s.waiting (cap - level)
  let running' := running ++ List.replicate k dur
  { level := level + k, waiting := s.waiting - k
    running := running'
    maxInFlight := max s.maxInFlight running'.length }

/-- Run the fan-out simulation for a number of ticks. -/
def limiterRun (cap dur m ticks : Nat) : LimiterSim :=
  Nat.rec (limiterInit cap dur m) (fun _ s => limiterStep cap dur s) ticks

/-! ## 3. URL sanitizer (src/util/url_sanitizer.py)

`clean_product_url` calls `urllib.parse.urlparse`, `parse_qsl`,
`urlencode` and `urlunparse`; those stdlib helpers are modelled below
from CPython's implementation.  The `params` component of
`urlparse`/`urlunparse` is folded into the path (nothing in the
sanitizer touches it, and splitting and re-joining it is the identity on
the reassembled string); `str.lower` and `str.strip` are modelled on the
ASCII fragment; the NFKC netloc check of CPython (relevant only to
exotic Unicode hosts) is not modelled. -/

/-- ASCII letter test. -/
def isAsciiAlpha (c : Char) : Bool :=
  ('a' ≤ c && c ≤ 'z') || ('A' ≤ c && c ≤ 'Z')

/-- ASCII digit test. -/
def isAsciiDigit (c : Char) : Bool := '0' ≤ c && c ≤ '9'

/-- CPython `scheme_chars`. -/
def isSchemeChar (c : Char) : Bool :=
  isAsciiAlpha c || isAsciiDigit c || c = '+' || c = '-' || c = '.'

/-- CPython `_ALWAYS_SAFE` for `quote`: ASCII alphanumerics and
`_.-~`. -/
def alwaysSafe (c : Char) : Bool :=
  isAsciiAlpha c || isAsciiDigit c || c = '_' || c = '.' || c = '-' || c = '~'

/-- Upper-case hex digit of a value below 16. -/
def hexUpper (n : Nat) : Char :=
  if n < 10 then Char.ofNat ('0'.toNat + n) else Char.ofNat ('A'.toNat + n - 10)

/-- Value of a hex digit (both cases), `none` otherwise. -/
def hexVal (c : Char) : Option Nat :=
  if '0' ≤ c ∧ c ≤ '9' then some (c.toNat - '0'.toNat)
  else if 'a' ≤ c ∧ c ≤ 'f' then some (c.toNat - 'a'.toNat + 10)
  else if 'A' ≤ c ∧ c ≤ 'F' then some (c.toNat - 'A'.toNat + 10)
  else none

/-- `%XX` escape of one byte (CPython quotes with upper-case hex). -/
def percentByte (b : Nat) : Str := ['%', hexUpper (b / 16), hexUpper (b % 16)]

/-- UTF-8 encoding of a code point. -/
def utf8Bytes (n : Nat) : List Nat :=
  if n < 0x80 then [n]
  else if n < 0x800 then [0xC0 + n / 64, 0x80 + n % 64]
  else if n < 0x10000 then
    [0xE0 + n / 4096, 0x80 + n / 64 % 64, 0x80 + n % 64]
  else
    [0xF0 + n / 262144, 0x80 + n / 4096 % 64, 0x80 + n / 64 % 64,
     0x80 + n % 64]

/-- UTF-8 continuation byte test. -/
def isCont (b : Nat) : Bool := 0x80 ≤ b && b < 0xC0

/-- Greedy UTF-8 decoding with replacement on malformed input,
fuel-indexed so the recursion is structural; `utf8DecodeAll` below
applies it with sufficient fuel.  Models
`bytes.decode("utf-8", errors="replace")` (the replacement granularity
on malformed input is approximated one byte at a time; valid input
decodes exactly). -/
def utf8DecodeGo : Nat → List Nat → Str
  | _, [] => []
  | 0, _ :: _ => []
  | fuel + 1, b0 :: rest =>
    if b0 < 0x80 then Char.ofNat b0 :: utf8DecodeGo fuel rest
    else if 0xC2 ≤ b0 ∧ b0 < 0xE0 then
      match rest with
      | b1 :: r =>
        if isCont b1 then
          Char.ofNat ((b0 - 0xC0) * 64 + (b1 - 0x80)) :: utf8DecodeGo fuel r
        else '�' :: utf8DecodeGo fuel (b1 :: r)
      | [] => ['�']
    else if 0xE0 ≤ b0 ∧ b0 < 0xF0 then
      match rest with
      | b1 :: b2 :: r =>
        if isCont b1 ∧ isCont b2 ∧
            0x800 ≤ (b0 - 0xE0) * 4096 + (b1 - 0x80) * 64 + (b2 - 0x80) ∧
            ¬(0xD800 ≤ (b0 - 0xE0) * 4096 + (b1 - 0x80) * 64 + (b2 - 0x80) ∧
              (b0 - 0xE0) * 4096 + (b1 - 0x80) * 64 + (b2 - 0x80) < 0xE000) then
          Char.ofNat ((b0 - 0xE0) * 4096 + (b1 - 0x80) * 64 + (b2 - 0x80)) ::
            utf8DecodeGo fuel r
        else '�' :: utf8DecodeGo fuel (b1 :: b2 :: r)
      | [b1] => '�' :: utf8DecodeGo fuel [b1]
      | [] => ['�']
    else if 0xF0 ≤ b0 ∧ b0 < 0xF5 then
      match rest with
      | b1 :: b2 :: b3 :: r =>
        if isCont b1 ∧ isCont b2 ∧ isCont b3 ∧
            0x10000 ≤ (b0 - 0xF0) * 262144 + (b1 - 0x80) * 4096 +
              (b2 - 0x80) * 64 + (b3 - 0x80) ∧
            (b0 - 0xF0) * 262144 + (b1 - 0x80) * 4096 +
              (b2 - 0x80) * 64 + (b3 - 0x80) < 0x110000 then
          Char.ofNat ((b0 - 0xF0) * 262144 + (b1 - 0x80) * 4096 +
            (b2 - 0x80) * 64 + (b3 - 0x80)) :: utf8DecodeGo fuel r
        else '�' :: utf8DecodeGo fuel (b1 :: b2 :: b3 :: r)
      | [b1, b2] => '�' :: utf8DecodeGo fuel [b1, b2]
      | [b1] => '�' :: utf8DecodeGo fuel [b1]
      | [] => ['�']
    else '�' :: utf8DecodeGo fuel rest

/-- Greedy UTF-8 decoding of a whole byte run (the fuel `l.length`
always suffices, since every step consumes at least one byte). -/
def utf8DecodeAll (l : List Nat) : Str := utf8DecodeGo l.length l

mutual

/-- CPython `unquote`: maximal runs of valid `%XX` escapes are decoded
as UTF-8 byte runs; a `%` not followed by two hex digits stays
literal. -/
def unquote : Str → Str
  | [] => []
  | '%' :: h1 :: h2 :: rest =>
    match hexVal h1, hexVal h2 with
    | some v1, some v2 => unquoteRun [v1 * 16 + v2] rest
    | _, _ => '%' :: unquote (h1 :: h2 :: rest)
  | c :: cs => c :: unquote cs

/-- Helper of `unquote`: a byte run in progress (`acc`), extended by
further `%XX` escapes and flushed through UTF-8 decoding at the first
non-escape position. -/
def unquoteRun (acc : List Nat) : Str → Str
  | [] => utf8DecodeAll acc
  | '%' :: h1 :: h2 :: rest =>
    match hexVal h1, hexVal h2 with
    | some v1, some v2 => unquoteRun (acc ++ [v1 * 16 + v2]) rest
    | _, _ => utf8DecodeAll acc ++ '%' :: unquote (h1 :: h2 :: rest)
  | c :: cs => utf8DecodeAll acc ++ c :: unquote cs

end

/-- CPython `unquote_plus` as used by `parse_qsl`: `+` becomes a space,
then percent-decoding. -/
def unquotePlus (s : Str) : Str :=
  unquote (s.map (fun c => if c = '+' then ' ' else c))

/-- CPython `quote_plus` with `safe=''` (as called by `urlencode`):
safe characters kept, space becomes `+`, everything else is
percent-encoded as UTF-8. -/
def quoteChar (c : Char) : Str :=
  if alwaysSafe c then [c]
  else if c = ' ' then ['+']
  else cmap percentByte (utf8Bytes c.toNat)

/-- `quote_plus` over a whole string. -/
def quotePlus (s : Str) : Str := cmap quoteChar s

/-- The `+`-to-space substitution performed by `parse_qsl` before
unquoting. -/
def plusToSpace (c : Char) : Char := if c = '+' then ' ' else c

/-- One character's `quote_plus` emission after the `+`-to-space
substitution (space re-appears as a space; everything else is
unchanged, since `quote_plus` never emits `+` for other characters). -/
def quoteCharM (c : Char) : Str :=
  if alwaysSafe c then [c]
  else if c = ' ' then [' ']
  else cmap percentByte (utf8Bytes c.toNat)

/-- Characters that `quote_plus` percent-encodes. -/
def pctType (c : Char) : Bool := !alwaysSafe c && !(c = ' ')

/-- Whether a string begins with a valid `%XX` escape. -/
def isPctStartB : Str → Bool
  | c :: h1 :: h2 :: _ => c = '%' && (hexVal h1).isSome && (hexVal h2).isSome
  | _ => false

/-- CPython `urlencode(pairs, doseq=True)` on string pairs. -/
def urlencode (pairs : List (Str × Str)) : Str :=
  joinWith [('&' : Char)]
    (pairs.map (fun kv => quotePlus kv.1 ++ '=' :: quotePlus kv.2))

/-- CPython `parse_qsl(qs, keep_blank_values=True)`: split on `&`,
skip empty fields, split each field at the first `=` (missing value
becomes blank), unquote names and values. -/
def parse_qsl (s : Str) : List (Str × Str) :=
  (splitAll '&' s).filterMap (fun f =>
    if f = [] then none
    else
      match splitFirst '=' f with
      | (n, some v) => some (unquotePlus n, unquotePlus v)
      | (n, none) => some (unquotePlus n, []))

/-- Components of a split URL (CPython `SplitResult`; the `params`
component of `urlparse` is folded into `path`). -/
structure UrlParts where
  scheme : Str
  netloc : Str
  path : Str
  query : Str
  fragment : Str
deriving DecidableEq, Repr

/-- CPython `urlsplit`: scheme detection (letter head, scheme chars,
lower-cased), `//`-netloc up to the first `/?#`, bracket sanity check
(raises `ValueError("Invalid IPv6 URL")`), then fragment and query
splits. -/
def urlsplit (u : Str) : Except Str UrlParts :=
  let p :=
    match splitFirst ':' u with
    | (pre, some post) =>
      if (match pre with | c :: _ => isAsciiAlpha c | [] => false) &&
          pre.all isSchemeChar
      then (lowerAscii pre, post) else ([], u)
    | (_, none) => ([], u)
  let notDelim : Char → Bool := fun c => !(c = '/' || c = '?' || c = '#')
  let q :=
    if startsWithB (str "//") p.2 then
      ((p.2.drop 2).takeWhile notDelim, (p.2.drop 2).dropWhile notDelim)
    else ([], p.2)
  if (q.1.contains '[' ∧ ¬q.1.contains ']') ∨
      (q.1.contains ']' ∧ ¬q.1.contains '[') then
    .error (str "Invalid IPv6 URL")
  else
    let r := match splitFirst '#' q.2 with
      | (a, some b) => (a, b)
      | (a, none) => (a, ([] : Str))
    let s := match splitFirst '?' r.1 with
      | (a, some b) => (a, b)
      | (a, none) => (a, ([] : Str))
    .ok ⟨p.1, q.1, s.1, s.2, r.2⟩

/-- CPython `urlunsplit`. -/
def urlunsplit (p : UrlParts) : Str :=
  let url := p.path
  let url :=
    if p.netloc ≠ [] ∨ startsWithB (str "//") url then
      str "//" ++ p.netloc ++
        (if url ≠ [] ∧ ¬startsWithB (str "/") url then '/' :: url else url)
    else url
  let url := if p.scheme ≠ [] then p.scheme ++ ':' :: url else url
  let url := if p.query ≠ [] then url ++ '?' :: p.query else url
  if p.fragment ≠ [] then url ++ '#' :: p.fragment else url

/-- Allow-list (src/util/url_sanitizer.py:7-11). -/
def ALLOWED_BAUHAUS_DOMAINS : List Str :=
  [str "bauhaus.info", str "bauhaus.de", str "bauhaus.at"]

/-- Model of `_is_tracking_param` (src/util/url_sanitizer.py:51-61). -/
def is_tracking_param (k : Str) : Bool :=
  let lowered := lowerAscii k
  lowered = str "fbclid" || lowered = str "gclid" || lowered = str "ref" ||
  lowered = str "utm" || startsWithB (str "utm_") lowered ||
  startsWithB (str "mc_") lowered || startsWithB (str "ref_") lowered

/-- The candidate string parsed by `clean_product_url`
(src/util/url_sanitizer.py:22-24): stripped input, with the default
scheme prepended (after `lstrip("/")`) when it does not start with
"http". -/
def candidateOf (url : Str) : Str :=
  let c := pyStrip url
  if startsWithB (str "http") c then c
  else str "https://" ++ c.dropWhile (· = '/')

/-- The second half of `clean_product_url`
(src/util/url_sanitizer.py:27-48), operating on the parsed
candidate. -/
def cleanFromParts (parsed : UrlParts) : Except Str Str :=
  if parsed.netloc = [] then
    .error (str "URL enthaelt keine gueltige Domain")
  else
    let host := lowerAscii parsed.netloc
    match ALLOWED_BAUHAUS_DOMAINS.find? (fun d => endsWithB d host) with
    | none => .error (str "Nur Bauhaus-Domains sind erlaubt")
    | some d =>
      let normalizedHost :=
        if startsWithB (str "www.") host then host else str "www." ++ d
      let filtered :=
        (parse_qsl parsed.query).filter (fun kv => !is_tracking_param kv.1)
      .ok (urlunsplit
        ⟨parsed.scheme, normalizedHost, parsed.path, urlencode filtered, []⟩)

/-- Model of `clean_product_url` (src/util/url_sanitizer.py:16-48):
`Except.error` embeds a raised `ValueError`. -/
def clean_product_url (url : Str) : Except Str Str :=
  if pyStrip url = [] then .error (str "URL darf nicht leer sein")
  else
    match urlsplit (candidateOf url) with
    | .error m => .error m
    | .ok parsed => cleanFromParts parsed

/-! ## 4. Shopping-list merge (src/agents/writer.py, _merge_product_results)

The `ShoppingList` wrapper only carries its `items`; the merge rewrites
`items` and copies everything else, so the embedding works on the item
list directly.  `pydantic.HttpUrl` fields are embedded as strings. -/

/-- Structured product record (src/models/types.py `ProductItem`). -/
structure ProductItem where
  title : Str
  url : Str
  note : Option Str := none
  price_text : Option Str := none
deriving DecidableEq, Repr

/-- Shopping-list entry (src/models/report_payload.py `ShoppingItem`). -/
structure ShoppingItem where
  position : Option Int := none
  category : Str
  product : Str
  quantity : Str
  rationale : Str
  price : Option Str := none
  url : Option Str := none
deriving DecidableEq, Repr

/-- Sanitize a URL, falling back to the raw string on `ValueError`
(the `try/except ValueError` pattern of `_merge_product_results`). -/
def sanitizeOr (u : Str) : Str :=
  match clean_product_url u with
  | .ok s => s
  | .error _ => u

/-- Python truthiness of an optional string (`None` and `""` falsy). -/
def optTruthy (o : Option Str) : Option Str :=
  match o with
  | some s => if s = [] then none else some s
  | none => none

/-- Python `a or b` on optional strings. -/
def pyOr (a : Option Str) (b : Option Str) : Option Str :=
  match optTruthy a with
  | some s => some s
  | none => b

/-- The `existing_by_url` dict (src/agents/writer.py:207-214): one pass
over the incoming items, keyed by sanitized URL; later items overwrite
earlier ones (modelled by shadowing cons and head-first lookup). -/
def buildExistingByUrl (items : List ShoppingItem) :
    List (Str × ShoppingItem) :=
  items.foldl (fun m item =>
    match item.url with
    | some u => (sanitizeOr u, item) :: m
    | none => m) []

/-- The `price_text` expression of the products loop
(src/agents/writer.py:226). -/
def mergePrice (p : ProductItem) (existing : Option ShoppingItem) : Str :=
  pyStrip ((pyOr p.price_text
    (pyOr (match existing with | some e => e.price | none => none)
      (some (str "ca. Preis auf Anfrage")))).getD [])

/-- The products loop of `_merge_product_results`
(src/agents/writer.py:219-243): builds one `ShoppingItem` per product
(metadata taken from a URL-matching pre-existing item when present) and
collects the sanitized URLs seen.  `idx` is the 1-based `enumerate`
counter. -/
def mergeProductsLoop (existingByUrl : List (Str × ShoppingItem)) :
    Nat → List ProductItem → List ShoppingItem × List Str
  | _, [] => ([], [])
  | idx, p :: rest =>
    let sanitizedUrl := sanitizeOr p.url
    let existing := existingByUrl.lookup sanitizedUrl
    let item : ShoppingItem :=
      { position := some (match existing with
          | some e =>
            (match e.position with
             | some v => if v = 0 then (idx : Int) else v
             | none => (idx : Int))
          | none => (idx : Int))
        category := match existing with
          | some e => e.category
          | none => str "Material"
        product := match existing with
          | some e => e.product
          | none => p.title
        quantity := match existing with
          | some e => e.quantity
          | none => str "1"
        rationale := match existing with
          | some e => e.rationale
          | none => (optTruthy p.note).getD (str "Empfohlenes Bauhaus-Produkt")
        price := some (mergePrice p existing)
        url := some sanitizedUrl }
    let r := mergeProductsLoop existingByUrl (idx + 1) rest
    (item :: r.1, sanitizedUrl :: r.2)

/-- The pre-existing-items loop (src/agents/writer.py:245-255): keep
URL-less items; keep URL-carrying items only when their sanitized URL
was not used by a fresh product. -/
def keepExistingItems (used : List Str) (items : List ShoppingItem) :
    List ShoppingItem :=
  items.filter (fun item =>
    match item.url with
    | none => true
    | some u => !used.contains (sanitizeOr u))

/-- The final dedup loop (src/agents/writer.py:257-264): keep the first
item per stripped, lower-cased category key. -/
def dedupByCategory : List ShoppingItem → List Str → List ShoppingItem
  | [], _ => []
  | item :: rest, seen =>
    let key := lowerAscii (pyStrip item.category)
    if key ∈ seen then dedupByCategory rest seen
    else item :: dedupByCategory rest (key :: seen)

/-- Model of `_merge_product_results` (src/agents/writer.py:205-267) on
the item lists. -/
def merge_product_results (shopping : List ShoppingItem)
    (products : List ProductItem) : List ShoppingItem :=
  let existingByUrl := buildExistingByUrl shopping
  let r := mergeProductsLoop existingByUrl 1 products
  dedupByCategory (r.1 ++ keepExistingItems r.2 shopping) []

/-- The stripped, lower-cased category key used by the final dedup loop
of `_merge_product_results`. -/
def categoryKey (it : ShoppingItem) : Str := lowerAscii (pyStrip it.category)

/-- Concrete pre-existing shopping item (category "Werkzeug") pointing
at a Bauhaus product URL. -/
def itemA : ShoppingItem :=
  { category := str "Werkzeug", product := str "Akkuschrauber"
    quantity := str "1", rationale := str "Montage"
    url := some (str "https://www.bauhaus.de/p") }

/-- Concrete pre-existing shopping item (category "Material") pointing
at the same Bauhaus product URL as `itemA`. -/
def itemB : ShoppingItem :=
  { category := str "Material", product := str "Schrauben"
    quantity := str "2", rationale := str "Befestigung"
    url := some (str "https://www.bauhaus.de/p") }

/-- Concrete freshly extracted product whose URL normalizes to the same
canonical URL as `itemA` and `itemB`. -/
def prodP : ProductItem :=
  { title := str "Schrauben-Set", url := str "https://bauhaus.de/p" }

/-! ## 5-pre. Shared record types -/

/-- Classifier outcome (src/guards/schemas.py `InputGuardResult`). -/
structure InputGuardResult where
  category : Str
  reasons : List Str
deriving DecidableEq, Repr

/-- Auditor outcome (src/guards/schemas.py `OutputGuardResult`). -/
structure OutputGuardResult where
  allowed : Bool
  issues : List Str
deriving DecidableEq, Repr

/-- Opaque stand-in for a dumped structured report
(`report.payload.model_dump()`); the pipeline only passes it through. -/
structure ReportPayloadDump where
  dump : Str
deriving DecidableEq, Repr

/-- Writer outcome (src/agents/schemas.py `ReportData`), restricted to the
fields the pipeline inspects. -/
structure ReportData where
  markdown_report : Str
  payload : Option ReportPayloadDump := none
deriving DecidableEq, Repr

/-- Email delivery outcome: the fields of the dict returned by
`send_email` that `run_job` reads (`links`, `html_preview`). -/
structure EmailResult where
  links : List Str
  html_preview : Option Str := none
deriving DecidableEq, Repr

/-- Search task (src/agents/schemas.py `WebSearchItem`; the `reason` enum
value is embedded as its string value). -/
structure WebSearchItem where
  reason : Str
  query : Str
deriving DecidableEq, Repr

/-! ## 5. Search fan-out (src/agents/search.py, perform_searches)

Each `_execute_search_item` task is abstracted by an oracle mapping the
task's position in the (effective) plan to its result
`(summary, products)`; the concurrent execution is modelled by an
explicit completion schedule `sched` listing task indices in completion
order, each completion writing its slot, and `asyncio.gather` reading
the slots in task order. -/

/-- The reason label of the shopping-list task appended for DIY jobs
(src/agents/search.py:78). -/
def bauhausReason : Str := str "Einkaufsliste Bauhaus"

/-- The query of the appended shopping-list task
(src/agents/search.py:79-81). -/
def bauhausQuery (userQuery : Str) : Str :=
  userQuery ++
    str " benötigte Produkte und Zubehör site:bauhaus.info OR site:bauhaus.at OR site:bauhaus.de"

/-- The closed `SearchPhase` enum (src/agents/schemas.py:14-27), as the
string values of its members. -/
def SEARCH_PHASES : List Str :=
  [str "Vorbereitung & Planung", str "Material & Werkzeuge",
   str "Sicherheit & Umwelt", str "Demontage/Untergrund",
   str "Schritt-für-Schritt-Ausführung", str "Qualität & Kontrolle",
   str "Zeit & Kosten", str "Optionen & Upgrades",
   str "Pflege & Wartung", str "Visual Guide"]

/-- Pydantic construction of a `WebSearchItem` (src/agents/schemas.py:29-33):
the `reason` argument is coerced to the closed `SearchPhase` str-enum by
value, and a string outside the enum raises `pydantic.ValidationError`. -/
def mkWebSearchItem (reason query : Str) : Except Str WebSearchItem :=
  if SEARCH_PHASES.contains reason then .ok ⟨reason, query⟩
  else .error (str "1 validation error for WebSearchItem")

/-- Plan augmentation performed by `perform_searches`
(src/agents/search.py:77-89): for category DIY, unless an equivalent
shopping task is already planned, the code constructs
`WebSearchItem(reason="Einkaufsliste Bauhaus", ...)` — which raises
`ValidationError`, since that string is not a `SearchPhase` member. -/
def effectiveSearches (searches : List WebSearchItem) (userQuery : Str)
    (category : Option Str) : Except Str (List WebSearchItem) :=
  if upperAscii (category.getD []) = str "DIY" then
    if searches.any (fun it =>
        it.reason = bauhausReason &&
        containsSub (str "site:bauhaus") (lowerAscii it.query)) then
      .ok searches
    else
      match mkWebSearchItem bauhausReason (bauhausQuery userQuery) with
      | .error m => .error m
      | .ok item => .ok (searches ++ [item])
  else .ok searches

/-- Completion-order execution: `n` result slots, filled as the tasks in
`sched` complete (a task index may be scheduled at most once in reality;
re-scheduling rewrites the same value, so it is harmless). -/
def runSched (oracle : Nat → α) (n : Nat) (sched : List Nat) :
    List (Option α) :=
  sched.foldl (fun acc i => acc.set i (some (oracle i)))
    (List.replicate n none)

/-- Model of `asyncio.gather`: read the slots back in task order. -/
def gatherSched (oracle : Nat → α) (n : Nat) (sched : List Nat) : List α :=
  (runSched oracle n sched).reduceOption

/-- Model of `perform_searches` (src/agents/search.py:54-108): empty
plans are rejected; the DIY plan augmentation can raise (see
`effectiveSearches`); otherwise the effective plan is fanned out, the
summary list keeps only truthy (non-empty) summaries, in task order, and
product lists are concatenated in task order. -/
def perform_searches (oracle : Nat → Str × List ProductItem)
    (sched : List Nat) (plan : List WebSearchItem) (userQuery : Str)
    (category : Option Str) :
    Except Str (List Str × List ProductItem) :=
  if plan = [] then .error (str "no searches planned")
  else
    match effectiveSearches plan userQuery category with
    | .error m => .error m
    | .ok eff =>
      let combined := gatherSched oracle eff.length sched
      .ok ((combined.map Prod.fst).filter (· ≠ []),
           cmap Prod.snd combined)

/-! ## 6. Retry/fallback executors (src/agents/search.py)

A transport call is abstracted by an oracle from the call counter to its
outcome: a response whose extracted output text is `text`, a timeout
(`asyncio.wait_for` firing), or a raised exception with message `msg`.
The `tenacity.AsyncRetrying(stop=stop_after_attempt(3), reraise=True)`
loop retries every escaping exception (it has no `retry=` predicate);
backoff delays do not influence control flow and are not modelled. -/

inductive CallOutcome where
  | ok (text : Str)
  | timeout
  | exn (msg : Str)
deriving DecidableEq, Repr

/-- Model of `_is_tool_choice_error` (src/agents/search.py:360-362). -/
def is_tool_choice_error (msg : Str) : Bool :=
  containsSub (str "tool_choice") (lowerAscii msg) ||
  containsSub (str "unknown parameter") (lowerAscii msg)

/-- Model of `_is_tool_type_error` (src/agents/search.py:365-367). -/
def is_tool_type_error (msg toolType : Str) : Bool :=
  containsSub (lowerAscii toolType) (lowerAscii msg) &&
  containsSub (str "supported values") (lowerAscii msg)

/-- Model of `_collect_tool_types` (src/agents/search.py:370-376):
configured tool type first, then the fallbacks, deduplicated, empty
candidates skipped. -/
def collect_tool_types (webToolType : Str) : List Str :=
  [webToolType, str "web_search_preview",
   str "web_search_preview_2025_03_11"].foldl
    (fun seen c => if c ≠ [] ∧ c ∉ seen then seen ++ [c] else seen) []

/-- Outcome of trying one tool-type candidate inside one retry attempt of
`_invoke_standard_search`. -/
inductive ToolTypeStep where
  | success (text : Str)
  | raised (msg : Str)
  | nextType
deriving DecidableEq, Repr

/-- Timeout message raised by `_invoke_standard_search`
(src/agents/search.py:196). -/
def stdTimeoutMsg (q : Str) : Str :=
  str "Timeout fuer Suchanfrage '" ++ q ++ str "'"

/-- One tool-type candidate of `_invoke_standard_search`
(src/agents/search.py:151-204): first call with `tool_choice = "auto"`;
on a tool-choice shape error the parameter is dropped and the call is
repeated once; a tool-type shape error moves to the next candidate; any
other exception (and any timeout) escapes the attempt. -/
def stdToolType (oracle : Nat → CallOutcome) (k : Nat) (q tt : Str) :
    ToolTypeStep × Nat :=
  match oracle k with
  | .ok t => (.success (pyStrip t), k + 1)
  | .timeout => (.raised (stdTimeoutMsg q), k + 1)
  | .exn m =>
    if is_tool_choice_error m then
      match oracle (k + 1) with
      | .ok t => (.success (pyStrip t), k + 2)
      | .timeout => (.raised (stdTimeoutMsg q), k + 2)
      | .exn m2 =>
        if is_tool_type_error m2 tt then (.nextType, k + 2)
        else (.raised m2, k + 2)
    else if is_tool_type_error m tt then (.nextType, k + 1)
    else (.raised m, k + 1)

/-- Outcome of one `tenacity` attempt body of `_invoke_standard_search`:
a value was returned, an exception escaped, or every tool-type candidate
was rejected and the body completed without returning. -/
inductive AttemptOutcome where
  | success (text : Str)
  | raised (msg : Str)
  | fellThrough
deriving DecidableEq, Repr

/-- One attempt body: the cascade over tool-type candidates. -/
def stdAttempt (oracle : Nat → CallOutcome) (k : Nat) (q : Str) :
    List Str → AttemptOutcome × Nat
  | [] => (.fellThrough, k)
  | tt :: rest =>
    match stdToolType oracle k q tt with
    | (.success t, k') => (.success t, k')
    | (.raised m, k') => (.raised m, k')
    | (.nextType, k') => stdAttempt oracle k' q rest

/-- The `AsyncRetrying` loop of `_invoke_standard_search`: `fuel`
attempts remain; every escaping exception is retried until the attempt
ceiling, then reraised (`reraise=True`); a body that completes without
returning ends the loop, after which line 206 raises the terminal
error. -/
def stdRetry (oracle : Nat → CallOutcome) (k : Nat) (q : Str)
    (toolTypes : List Str) : Nat → Except Str Str × Nat
  | 0 => (.error [], k)
  | fuel + 1 =>
    match stdAttempt oracle k q toolTypes with
    | (.success t, k') => (.ok t, k')
    | (.fellThrough, k') =>
      (.error (str "search failed for query '" ++ q ++ str "'"), k')
    | (.raised m, k') =>
      if fuel = 0 then (.error m, k')
      else stdRetry oracle k' q toolTypes fuel

/-- Model of `_invoke_standard_search` (src/agents/search.py:120-206):
result together with the number of transport calls made. -/
def invoke_standard_search (oracle : Nat → CallOutcome)
    (webToolType q : Str) : Except Str Str × Nat :=
  stdRetry oracle 0 q (collect_tool_types webToolType) 3

/-- Timeout message raised by `_invoke_product_search`
(src/agents/search.py:312-314). -/
def prodTimeoutMsg (q : Str) : Str :=
  str "Timeout fuer Produkt-Suchanfrage '" ++ q ++ str "'"

/-- Summary string built by `_invoke_product_search` on a successful
parse (src/agents/search.py:331-335). -/
def prodSummary (products : List ProductItem) : Str :=
  if products ≠ [] then
    str "Einkaufsliste Bauhaus: " ++ (toString products.length).toList ++
      str " Produkte extrahiert."
  else str "Einkaufsliste Bauhaus: keine Produkte gefunden."

/-- Outcome of the parse/transport `while` loop of
`_invoke_product_search` for one request variant. -/
inductive ProdParseStep where
  | returned (res : Str × List ProductItem)
  | raised (msg : Str)
  | breakChoice
  | breakType
deriving DecidableEq, Repr

/-- The `while parse_attempts < 2` loop of `_invoke_product_search`
(src/agents/search.py:298-348), for a fixed tool type `tt` and
`tool_choice` inclusion flag: transport errors are classified like the
standard search (except that an unclassified exception returns a
placeholder instead of raising); a successful transport is parsed, and a
parse failure re-issues the request once before returning the empty
placeholder result. -/
def prodParse (parse : Str → Except Str (List ProductItem))
    (oracle : Nat → CallOutcome) (k : Nat) (q tt : Str)
    (includeTC : Bool) : Nat → ProdParseStep × Nat
  | 0 => (.returned (str "Einkaufsliste Bauhaus: keine Produkte gefunden.", []), k)
  | attemptsLeft + 1 =>
    match oracle k with
    | .timeout => (.raised (prodTimeoutMsg q), k + 1)
    | .exn m =>
      if includeTC && is_tool_choice_error m then (.breakChoice, k + 1)
      else if is_tool_type_error m tt then (.breakType, k + 1)
      else
        (.returned (str "Einkaufsliste Bauhaus: Fehler bei der Produktsuche.", []),
         k + 1)
    | .ok t =>
      match parse (pyStrip t) with
      | .ok products => (.returned (prodSummary products, products), k + 1)
      | .error _ =>
        if attemptsLeft = 0 then
          (.returned (str "Einkaufsliste Bauhaus: keine Produkte gefunden.", []),
           k + 1)
        else prodParse parse oracle (k + 1) q tt includeTC attemptsLeft

/-- Outcome of one tool-type candidate of `_invoke_product_search`. -/
inductive ProdTypeStep where
  | done (res : Str × List ProductItem)
  | raised (msg : Str)
  | nextType
  | abandon
deriving DecidableEq, Repr

/-- The `for _ in range(2)` loop of `_invoke_product_search`
(src/agents/search.py:284-355) for one tool type: the first pass keeps
`tool_choice`; a tool-choice shape error drops it and re-enters the
parse loop; a tool-type shape error with `tool_choice` still on abandons
the whole cascade (lines 350-355), while after the downgrade it moves to
the next tool type. -/
def prodRange (parse : Str → Except Str (List ProductItem))
    (oracle : Nat → CallOutcome) (k : Nat) (q tt : Str) :
    ProdTypeStep × Nat :=
  match prodParse parse oracle k q tt true 2 with
  | (.returned r, k') => (.done r, k')
  | (.raised m, k') => (.raised m, k')
  | (.breakType, k') => (.abandon, k')
  | (.breakChoice, k') =>
    match prodParse parse oracle k' q tt false 2 with
    | (.returned r, k'') => (.done r, k'')
    | (.raised m, k'') => (.raised m, k'')
    | (.breakType, k'') => (.nextType, k'')
    | (.breakChoice, k'') => (.nextType, k'')

/-- Outcome of one attempt body of `_invoke_product_search`. -/
inductive ProdAttemptOutcome where
  | done (res : Str × List ProductItem)
  | raised (msg : Str)
  | noResults
deriving DecidableEq, Repr

/-- The tool-type cascade of one attempt of `_invoke_product_search`;
exhausting the candidates (or abandoning, lines 354-355) lets the
attempt body complete, after which line 357 returns the default
result. -/
def prodToolLoop (parse : Str → Except Str (List ProductItem))
    (oracle : Nat → CallOutcome) (k : Nat) (q : Str) :
    List Str → ProdAttemptOutcome × Nat
  | [] => (.noResults, k)
  | tt :: rest =>
    match prodRange parse oracle k q tt with
    | (.done r, k') => (.done r, k')
    | (.raised m, k') => (.raised m, k')
    | (.abandon, k') => (.noResults, k')
    | (.nextType, k') => prodToolLoop parse oracle k' q rest

/-- The `AsyncRetrying` loop of `_invoke_product_search` plus the final
default return (src/agents/search.py:261-357). -/
def prodRetry (parse : Str → Except Str (List ProductItem))
    (oracle : Nat → CallOutcome) (k : Nat) (q : Str)
    (toolTypes : List Str) : Nat → Except Str (Str × List ProductItem) × Nat
  | 0 => (.error [], k)
  | fuel + 1 =>
    match prodToolLoop parse oracle k q toolTypes with
    | (.done r, k') => (.ok r, k')
    | (.noResults, k') =>
      (.ok (str "Einkaufsliste Bauhaus: keine Ergebnisse.", []), k')
    | (.raised m, k') =>
      if fuel = 0 then (.error m, k')
      else prodRetry parse oracle k' q toolTypes fuel

/-- Model of `_invoke_product_search` (src/agents/search.py:209-357),
parameterised over the structured parser `_parse_product_response`
(abstracted, since the claims concern the retry control flow);
result together with the number of transport calls made. -/
def invoke_product_search (parse : Str → Except Str (List ProductItem))
    (oracle : Nat → CallOutcome) (webToolType q : Str) :
    Except Str (Str × List ProductItem) × Nat :=
  prodRetry parse oracle 0 q (collect_tool_types webToolType) 3

/-! ## 7. Job pipeline (src/orchestrator/pipeline.py)

Collaborators are oracles: each external call is a function of the
arguments the pipeline passes, returning `Except Str α` where
`Except.error msg` embeds a raised exception with message `msg`
(`str(error)`).  `run_job` threads the status store and records the
trace of collaborator invocations. -/

/-- Payload dict built by `run_job` on the `done` phase. -/
structure DonePayload where
  email_links : List Str
  email_preview : Option Str
  product_results : List ProductItem
  report_payload : Option ReportPayloadDump
deriving DecidableEq, Repr

/-- One entry of the status store (src/orchestrator/status.py): phase,
detail, payload — always written together. -/
structure StatusEntry where
  phase : Str
  detail : Option Str
  payload : Option DonePayload
deriving DecidableEq, Repr

/-- Status store: job id → latest entry.  The Python dict write
`_STATUSES[job_id] = ...` is modelled by shadowing cons; `lookup`
returns the most recent write. -/
abbrev StatusStore := List (Str × StatusEntry)

/-- Model of `set_status` (src/orchestrator/status.py:12). -/
def set_status (store : StatusStore) (jobId phase : Str)
    (detail : Option Str) (payload : Option DonePayload) : StatusStore :=
  (jobId, ⟨phase, detail, payload⟩) :: store

/-- Model of `get_status` (src/orchestrator/status.py:36), including the
placeholder entry for unknown ids. -/
def get_status (store : StatusStore) (jobId : Str) : StatusEntry :=
  (store.lookup jobId).getD
    ⟨str "unknown", some (str "Job wurde nicht gefunden"), none⟩

/-- Collaborator calls observable from `run_job`, in the order the
pipeline can make them. -/
inductive CollabCall where
  | classify
  | planSearches
  | performSearches
  | productEnrichment
  | writeReport
  | auditReport
  | sendEmail
deriving DecidableEq, Repr

/-- Oracle bundle for one job run: the behaviours of all collaborators
invoked by `run_job` (classifier, planner, search fan-out, product
enrichment, writer, auditor, email delivery). -/
structure Collabs where
  classify_query_llm : Str → Except Str InputGuardResult
  plan_searches : Str → Except Str (List WebSearchItem)
  perform_searches :
    List WebSearchItem → Str → Str → Except Str (List Str × List ProductItem)
  perform_product_enrichment :
    Str → List Str → Except Str (List ProductItem)
  write_report :
    Str → List Str → Str → List ProductItem → Except Str ReportData
  audit_report_llm : Str → Str → Except Str OutputGuardResult
  send_email : ReportData → Str → List ProductItem → Except Str EmailResult

/-- Result of the `try:` body of `run_job`: either it ran to a normal
return, or an exception with message `msg` escaped; both carry the status
store as updated so far and the collaborator-call trace. -/
inductive BodyResult where
  | finished (store : StatusStore) (calls : List CollabCall)
  | failed (store : StatusStore) (calls : List CollabCall) (msg : Str)
deriving Repr

/-- Straight-line translation of the `try:` body of `run_job`
(src/orchestrator/pipeline.py:58-131).  Each `await collaborator(...)`
becomes a `match` on the oracle's `Except` result; a raised exception
short-circuits to `BodyResult.failed`. -/
def run_job_body (c : Collabs) (jobId query toEmail : Str)
    (store : StatusStore) : BodyResult :=
  let store := set_status store jobId (str "planning") none none
  match c.classify_query_llm query with
  | .error m => .failed store [.classify] m
  | .ok guard =>
    if guard.category = str "REJECT" then
      .finished
        (set_status store jobId (str "rejected")
          (some (str "Kein zulässiger Scope: " ++
            joinWith (str "; ") guard.reasons)) none)
        [.classify]
    else
      let store := set_status store jobId (str "planning")
        (some (str "Kategorie: " ++ guard.category)) none
      match c.plan_searches query with
      | .error m => .failed store [.classify, .planSearches] m
      | .ok plan =>
        let store := set_status store jobId (str "searching") none none
        match c.perform_searches plan query guard.category with
        | .error m =>
          .failed store [.classify, .planSearches, .performSearches] m
        | .ok (summaries, _) =>
          let isDiy := upperAscii guard.category = str "DIY"
          match (if isDiy
                 then (c.perform_product_enrichment query summaries,
                       [CollabCall.classify, .planSearches, .performSearches,
                        .productEnrichment])
                 else (.ok [], [.classify, .planSearches, .performSearches])) with
          | (.error m, calls) => .failed store calls m
          | (.ok product_results, calls) =>
            let store := set_status store jobId (str "writing") none none
            match c.write_report query summaries guard.category
                product_results with
            | .error m => .failed store (calls ++ [.writeReport]) m
            | .ok report =>
              let calls := calls ++ [CollabCall.writeReport]
              match c.audit_report_llm query report.markdown_report with
              | .error m => .failed store (calls ++ [.auditReport]) m
              | .ok audit =>
                let calls := calls ++ [CollabCall.auditReport]
                if !audit.allowed then
                  .finished
                    (set_status store jobId (str "rejected")
                      (some (str "Policy: " ++
                        joinWith (str "; ") audit.issues)) none)
                    calls
                else
                  let store :=
                    set_status store jobId (str "email") none none
                  match c.send_email report toEmail product_results with
                  | .error m => .failed store (calls ++ [.sendEmail]) m
                  | .ok emailResult =>
                    let calls := calls ++ [CollabCall.sendEmail]
                    let bauhausLinks := emailResult.links.filter
                      (fun l => containsSub (str "bauhaus") (lowerAscii l))
                    let payload : DonePayload :=
                      { email_links := bauhausLinks
                        email_preview := emailResult.html_preview
                        product_results := product_results
                        report_payload := report.payload }
                    .finished
                      (set_status store jobId (str "done") none
                        (some payload))
                      calls

/-- Model of `run_job`: the body wrapped in the single top-level handler
(`except Exception as error: set_status(job_id, "error", str(error))`).
Returns the final store and the collaborator-call trace. -/
def run_job (c : Collabs) (jobId query toEmail : Str)
    (store : StatusStore) : StatusStore × List CollabCall :=
  match run_job_body c jobId query toEmail store with
  | .finished s calls => (s, calls)
  | .failed s calls m =>
    (set_status s jobId (str "error") (some m) none, calls)

/-- Concrete collaborator bundle for a rejected job: the classifier
returns the reject category; all other collaborators would fail loudly
if they were (wrongly) invoked. -/
def rejectCollabs : Collabs :=
  { classify_query_llm := fun _ =>
      .ok ⟨str "REJECT", [str "fachfremd", str "Finanzthema"]⟩
    plan_searches := fun _ => .error (str "unused")
    perform_searches := fun _ _ _ => .error (str "unused")
    perform_product_enrichment := fun _ _ => .error (str "unused")
    write_report := fun _ _ _ _ => .error (str "unused")
    audit_report_llm := fun _ _ => .error (str "unused")
    send_email := fun _ _ _ => .error (str "unused") }

/-- Concrete collaborator bundle whose classifier call raises. -/
def failingCollabs : Collabs :=
  { classify_query_llm := fun _ => .error (str "connection reset")
    plan_searches := fun _ => .error (str "unused")
    perform_searches := fun _ _ _ => .error (str "unused")
    perform_product_enrichment := fun _ _ => .error (str "unused")
    write_report := fun _ _ _ _ => .error (str "unused")
    audit_report_llm := fun _ _ => .error (str "unused")
    send_email := fun _ _ _ => .ok ⟨[], none⟩ }

/-- Concrete collaborator bundle for a job that completes: KI_CONTROL
category (no product enrichment), a report with a structured payload,
a passing audit, and an email delivery returning one non-Bauhaus
reference link. -/
def happyCollabs : Collabs :=
  { classify_query_llm := fun _ => .ok ⟨str "KI_CONTROL", [str "Meta"]⟩
    plan_searches := fun _ => .ok [⟨str "Vorbereitung & Planung", str "q"⟩]
    perform_searches := fun _ _ _ => .ok ([str "s1"], [])
    perform_product_enrichment := fun _ _ => .ok []
    write_report := fun _ _ _ _ => .ok ⟨str "# Report", some ⟨str "dump"⟩⟩
    audit_report_llm := fun _ _ => .ok ⟨true, []⟩
    send_email := fun _ _ _ =>
      .ok ⟨[str "https://example.com/ref"], some (str "Vorschau")⟩ }

/-! ## Theorems -/

theorem cmap_map (f : β → List γ) (g : α → β) (l : List α) :
    cmap f (l.map g) = cmap (fun a => f (g a)) l := by
  induction l with
  | nil => rfl
  | cons a l ih => simp [cmap, ih]

theorem foldl_set_getElem? (oracle : Nat → α) (sched : List Nat)
    (acc : List (Option α)) (j : Nat) :
    (sched.foldl (fun a i => a.set i (some (oracle i))) acc)[j]? =
    if j ∈ sched ∧ j < acc.length then some (some (oracle j)) else acc[j]? := by
  induction sched generalizing acc with
  | nil => simp
  | cons i rest ih =>
    simp only [List.foldl_cons]
    rw [ih]
    simp only [List.length_set, List.getElem?_set, List.mem_cons]
    rcases Nat.lt_or_ge j acc.length with hl | hl
    · by_cases hm : j ∈ rest
      · simp [hm, hl]
      · by_cases hij : i = j
        · subst hij; simp [hm, hl]
        · simp [hm, hij, Ne.symm hij, hl]
    · by_cases hm : j ∈ rest
      · by_cases hij : i = j
        · subst hij
          simp [hm, Nat.not_lt.mpr hl, List.getElem?_eq_none hl]
        · simp [hm, hij, Ne.symm hij, Nat.not_lt.mpr hl,
            List.getElem?_eq_none hl]
      · by_cases hij : i = j
        · subst hij
          simp [hm, Nat.not_lt.mpr hl, List.getElem?_eq_none hl]
        · simp [hm, hij, Ne.symm hij, Nat.not_lt.mpr hl,
            List.getElem?_eq_none hl]

theorem reduceOption_map_some (l : List α) (f : α → β) :
    (l.map (fun a => some (f a))).reduceOption = l.map f := by
  induction l with
  | nil => rfl
  | cons a l ih => simp [List.reduceOption_cons_of_some, ih]

theorem gatherSched_perm (oracle : Nat → α) (n : Nat) (sched : List Nat)
    (h : sched.Perm (List.range n)) :
    gatherSched oracle n sched = (List.range n).map oracle := by
  have hmem : ∀ j, j ∈ sched ↔ j < n := fun j => by
    rw [h.mem_iff, List.mem_range]
  have hrun : runSched oracle n sched =
      (List.range n).map (fun i => some (oracle i)) := by
    apply List.ext_getElem?
    intro j
    rw [runSched, foldl_set_getElem?]
    by_cases hj : j < n
    · simp [hmem, hj, List.getElem?_replicate, List.getElem?_map,
        List.getElem?_range hj]
    · simp only [List.length_replicate, hmem, hj, and_false, if_false]
      rw [List.getElem?_eq_none (by simpa using hj),
        List.getElem?_eq_none (by simpa using hj)]
  rw [gatherSched, hrun, reduceOption_map_some]

/-- C1: the claim that `perform_searches` always returns exactly as many
summaries as the plan has tasks is false: a task whose summary is the
empty string is dropped by the `if summary:` truthiness filter
(src/agents/search.py:102-104), so a one-task plan whose search call
produces an empty summary yields zero summaries. -/
theorem C1_counterexample :
    perform_searches (fun _ => ([], [])) [0]
      [⟨str "Material & Werkzeuge", str "Holz"⟩] (str "Regal") none =
      Except.ok ([], []) ∧
    ([] : List Str).length ≠
      [(⟨str "Material & Werkzeuge", str "Holz"⟩ : WebSearchItem)].length := by
  exact ⟨by rfl, by decide⟩

/-- C1 (amended): (i) whenever the plan augmentation succeeds
(`effectiveSearches` returns a plan, i.e. outside the raising DIY-append
path), for every non-empty plan, every oracle of per-task results and
every completion schedule that is a permutation of the effective plan's
indices, `perform_searches` succeeds and the summary list is the
per-task summaries in plan order with empty summaries dropped — exactly
as many summaries as effective tasks, positionally matching, only when
every summary is non-empty — with product lists concatenated in plan
order, independent of the schedule; (ii) for category DIY and a plan of
valid `SearchPhase` reasons (as every planner-produced plan is), the
appended `WebSearchItem(reason="Einkaufsliste Bauhaus", ...)` raises
`ValidationError` (schemas.py:32 has no such enum member), so
`perform_searches` fails before any task runs, for every oracle and
schedule. -/
theorem C1_amended :
    (∀ (oracle : Nat → Str × List ProductItem) (sched : List Nat)
      (plan eff : List WebSearchItem) (uq : Str) (category : Option Str),
      plan ≠ [] →
      effectiveSearches plan uq category = .ok eff →
      sched.Perm (List.range eff.length) →
      (∀ i < eff.length, (oracle i).1 ≠ []) →
      perform_searches oracle sched plan uq category =
        Except.ok ((List.range eff.length).map (fun i => (oracle i).1),
          cmap (fun i => (oracle i).2) (List.range eff.length))) ∧
    (∀ (oracle : Nat → Str × List ProductItem) (sched : List Nat)
      (plan : List WebSearchItem) (uq : Str),
      plan ≠ [] →
      (∀ it ∈ plan, it.reason ∈ SEARCH_PHASES) →
      perform_searches oracle sched plan uq (some (str "DIY")) =
        .error (str "1 validation error for WebSearchItem")) := by
  constructor
  · intro oracle sched plan eff uq category hne heff hsched hall
    unfold perform_searches
    rw [if_neg hne, heff]
    dsimp only
    simp only [gatherSched_perm _ _ _ hsched]
    congr 1
    refine Prod.ext ?_ ?_
    · show (((List.range _).map oracle).map Prod.fst).filter _ = _
      rw [List.map_map]
      apply List.filter_eq_self.mpr
      intro a ha
      rcases List.mem_map.mp ha with ⟨i, hi, rfl⟩
      simpa using hall i (List.mem_range.mp hi)
    · show cmap Prod.snd ((List.range _).map oracle) = _
      rw [cmap_map]
  · intro oracle sched plan uq hne hvalid
    have hany : plan.any (fun it =>
        it.reason = bauhausReason &&
        containsSub (str "site:bauhaus") (lowerAscii it.query)) = false := by
      rw [List.any_eq_false]
      intro it hit
      have hmem := hvalid it hit
      intro hp
      rw [Bool.and_eq_true] at hp
      have hr : it.reason = bauhausReason := by
        have := hp.1
        simpa using this
      rw [hr] at hmem
      exact absurd hmem (by decide)
    unfold perform_searches
    rw [if_neg hne]
    unfold effectiveSearches
    rw [if_pos (show upperAscii (((some (str "DIY")).getD []) : Str) =
      str "DIY" from by decide)]
    rw [hany, if_neg (show ¬(false = true) from by decide)]
    rfl

/-- C1 (amended) witness: conjunct (i) at a concrete two-task non-DIY
plan with out-of-order completion and non-empty summaries; conjunct (ii)
at a concrete valid one-task plan under category DIY. -/
theorem C1_amended_witness :
    perform_searches
      (fun i => (if i = 0 then str "a" else str "b", []))
      [1, 0]
      [⟨str "Material & Werkzeuge", str "q1"⟩, ⟨str "Zeit & Kosten", str "q2"⟩]
      (str "Regal") none =
      Except.ok ([str "a", str "b"], []) ∧
    perform_searches (fun _ => (str "s", [])) [0]
      [⟨str "Material & Werkzeuge", str "q1"⟩] (str "Regal")
      (some (str "DIY")) =
      Except.error (str "1 validation error for WebSearchItem") := by
  constructor
  · have h := C1_amended.1
      (fun i => (if i = 0 then str "a" else str "b", []))
      [1, 0]
      [⟨str "Material & Werkzeuge", str "q1"⟩, ⟨str "Zeit & Kosten", str "q2"⟩]
      [⟨str "Material & Werkzeuge", str "q1"⟩, ⟨str "Zeit & Kosten", str "q2"⟩]
      (str "Regal") none (by decide) (by rfl) (by decide) (by decide)
    rw [h]
    rfl
  · exact C1_amended.2 (fun _ => (str "s", [])) [0]
      [⟨str "Material & Werkzeuge", str "q1"⟩] (str "Regal")
      (by decide) (by decide)

/-- C2: the claim that at most `concurrency_limit` external calls are
ever simultaneously in flight is false of the code: the gate is
`aiolimiter.AsyncLimiter(max(1, MAX_CONCURRENCY), time_period=1)`, a
leaky-bucket rate limiter that releases nothing when a call finishes, so
with `MAX_CONCURRENCY = 1` and two fanned-out calls lasting two refill
ticks each, the second call is admitted after one tick while the first
is still running: two calls are observed in flight under a limit of
one. -/
theorem C2_limiter_eval :
    (limiterRun 1 2 2 1).maxInFlight = 2 ∧
    1 < (limiterRun 1 2 2 1).maxInFlight := by
  exact ⟨by rfl, by decide⟩

/-- C3: the claim that only transient failures are retried is false of
the code: the `AsyncRetrying` loop of `_invoke_standard_search` carries
no `retry=` predicate (there is no `is_transient` classifier anywhere in
the executor), so an exception that is neither a timeout, nor rate
limiting, nor 5xx-class, nor a shape error — here the message "boom" —
escapes the attempt and is retried: the call succeeds on the second
attempt instead of aborting and propagating after the first. -/
theorem C3_counterexample :
    is_tool_choice_error (str "boom") = false ∧
    is_tool_type_error (str "boom") (str "web_search_preview") = false ∧
    is_tool_type_error (str "boom") (str "web_search_preview_2025_03_11") = false ∧
    invoke_standard_search
      (fun k => if k = 0 then .exn (str "boom") else .ok (str " hi "))
      (str "web_search_preview") (str "q") =
      (Except.ok (str "hi"), 2) := by
  refine ⟨by rfl, by rfl, by rfl, by rfl⟩

/-- C3 (amended): in `_invoke_standard_search` any exception that
escapes the candidate cascade — whether or not it is transient — is
retried (with exponential backoff plus jitter) up to the fixed ceiling
of 3 attempts: a first-call failure that is neither a tool-choice nor a
tool-type shape error is followed by a second attempt which can succeed,
and when every attempt fails that way the third attempt's exception
propagates after exactly 3 calls. -/
theorem C3_amended :
    (∀ (oracle : Nat → CallOutcome) (wtt q m t : Str),
      oracle 0 = .exn m → oracle 1 = .ok t →
      is_tool_choice_error m = false →
      (∀ tt ∈ collect_tool_types wtt, is_tool_type_error m tt = false) →
      collect_tool_types wtt ≠ [] →
      invoke_standard_search oracle wtt q = (Except.ok (pyStrip t), 2)) ∧
    (∀ (oracle : Nat → CallOutcome) (wtt q m : Str),
      (∀ k, oracle k = .exn m) →
      is_tool_choice_error m = false →
      (∀ tt ∈ collect_tool_types wtt, is_tool_type_error m tt = false) →
      collect_tool_types wtt ≠ [] →
      invoke_standard_search oracle wtt q = (Except.error m, 3)) := by
  constructor
  · intro oracle wtt q m t h0 h1 hc ht hne
    rcases hcol : collect_tool_types wtt with _ | ⟨tt0, rest⟩
    · exact absurd hcol hne
    · have htt0 : is_tool_type_error m tt0 = false :=
        ht tt0 (hcol ▸ List.mem_cons_self tt0 rest)
      simp [invoke_standard_search, hcol, stdRetry, stdAttempt, stdToolType,
        h0, h1, hc, htt0]
  · intro oracle wtt q m hk hc ht hne
    rcases hcol : collect_tool_types wtt with _ | ⟨tt0, rest⟩
    · exact absurd hcol hne
    · have htt0 : is_tool_type_error m tt0 = false :=
        ht tt0 (hcol ▸ List.mem_cons_self tt0 rest)
      simp [invoke_standard_search, hcol, stdRetry, stdAttempt, stdToolType,
        hk, hc, htt0]

/-- C3 (amended) witness: concrete oracles for both conjuncts. -/
theorem C3_amended_witness :
    invoke_standard_search
      (fun k => if k = 0 then .exn (str "kaputt") else .ok (str "ok"))
      (str "web_search_preview") (str "q") = (Except.ok (str "ok"), 2) ∧
    invoke_standard_search (fun _ => .exn (str "kaputt"))
      (str "web_search_preview") (str "q") = (Except.error (str "kaputt"), 3) := by
  constructor
  · exact C3_amended.1
      (fun k => if k = 0 then .exn (str "kaputt") else .ok (str "ok"))
      (str "web_search_preview") (str "q") (str "kaputt") (str "ok")
      (by rfl) (by rfl) (by rfl) (by decide) (by decide)
  · exact C3_amended.2 (fun _ => .exn (str "kaputt"))
      (str "web_search_preview") (str "q") (str "kaputt")
      (fun _ => rfl) (by rfl) (by decide) (by decide)

/-- C8: in `_invoke_product_search`, when the transport succeeds but the
payload does not parse into the expected shape, the request is retried
exactly once more (2 parse attempts in total) and the call then returns
the empty record list with the placeholder summary as a normal value —
it does not raise, so the fan-out survives the parse failure. -/
theorem C8_parse_retry (parse : Str → Except Str (List ProductItem))
    (oracle : Nat → CallOutcome) (wtt q t1 t2 e1 e2 : Str)
    (h0 : oracle 0 = .ok t1) (hp1 : parse (pyStrip t1) = .error e1)
    (h1 : oracle 1 = .ok t2) (hp2 : parse (pyStrip t2) = .error e2)
    (hne : collect_tool_types wtt ≠ []) :
    invoke_product_search parse oracle wtt q =
      (Except.ok (str "Einkaufsliste Bauhaus: keine Produkte gefunden.", []),
       2) := by
  rcases hcol : collect_tool_types wtt with _ | ⟨tt0, rest⟩
  · exact absurd hcol hne
  simp [invoke_product_search, hcol, prodRetry, prodToolLoop, prodRange,
    prodParse, h0, h1, hp1, hp2]

/-- C8 witness: a parser that always fails and a transport that always
delivers unparseable text. -/
theorem C8_parse_retry_witness :
    invoke_product_search (fun _ => .error (str "ungueltig"))
      (fun _ => .ok (str "notjson")) (str "web_search_preview") (str "q") =
      (Except.ok (str "Einkaufsliste Bauhaus: keine Produkte gefunden.", []),
       2) :=
  C8_parse_retry (fun _ => .error (str "ungueltig"))
    (fun _ => .ok (str "notjson")) (str "web_search_preview") (str "q")
    (str "notjson") (str "notjson") (str "ungueltig") (str "ungueltig")
    rfl rfl rfl rfl (by decide)

theorem get_status_set (store : StatusStore) (jid phase : Str)
    (detail : Option Str) (payload : Option DonePayload) :
    get_status (set_status store jid phase detail payload) jid =
      ⟨phase, detail, payload⟩ := by
  simp [get_status, set_status, List.lookup]

/-- C4: when the classifier returns the reject category, `run_job` sets
the job's phase to `rejected` with a detail carrying the classifier's
reasons, and stops: the only collaborator ever invoked is the
classifier — no planner, search fan-out, writer, auditor or email
delivery call occurs. -/
theorem C4_reject_stops (c : Collabs) (jid q e : Str) (store : StatusStore)
    (gr : InputGuardResult)
    (hc : c.classify_query_llm q = .ok gr)
    (hr : gr.category = str "REJECT") :
    (run_job c jid q e store).2 = [CollabCall.classify] ∧
    get_status (run_job c jid q e store).1 jid =
      ⟨str "rejected",
       some (str "Kein zulässiger Scope: " ++ joinWith (str "; ") gr.reasons),
       none⟩ := by
  constructor
  · simp [run_job, run_job_body, hc, hr]
  · simp [run_job, run_job_body, hc, hr, get_status_set]

/-- C4 witness: a concrete rejected job. -/
theorem C4_reject_stops_witness :
    (run_job rejectCollabs (str "j1") (str "Aktienkurs Apple") (str "a@b.de")
      []).2 = [CollabCall.classify] ∧
    get_status (run_job rejectCollabs (str "j1") (str "Aktienkurs Apple")
      (str "a@b.de") []).1 (str "j1") =
      ⟨str "rejected",
       some (str "Kein zulässiger Scope: " ++
         joinWith (str "; ") [str "fachfremd", str "Finanzthema"]),
       none⟩ :=
  C4_reject_stops rejectCollabs (str "j1") (str "Aktienkurs Apple")
    (str "a@b.de") [] ⟨str "REJECT", [str "fachfremd", str "Finanzthema"]⟩
    rfl rfl

theorem run_job_body_shape (c : Collabs) (jid q e : Str)
    (store : StatusStore) :
    (∃ s calls m, run_job_body c jid q e store = .failed s calls m) ∨
    (∃ st calls detail, run_job_body c jid q e store =
      .finished (set_status st jid (str "rejected") detail none) calls) ∨
    (∃ st calls payload, run_job_body c jid q e store =
      .finished (set_status st jid (str "done") none (some payload)) calls) := by
  unfold run_job_body
  rcases hc : c.classify_query_llm q with m | gr
  · exact Or.inl ⟨_, _, _, rfl⟩
  dsimp only
  by_cases hr : gr.category = str "REJECT"
  · rw [if_pos hr]
    exact Or.inr (Or.inl ⟨_, _, _, rfl⟩)
  rw [if_neg hr]
  rcases hp : c.plan_searches q with m | plan
  · exact Or.inl ⟨_, _, _, rfl⟩
  dsimp only
  rcases hs : c.perform_searches plan q gr.category with m | sres
  · exact Or.inl ⟨_, _, _, rfl⟩
  obtain ⟨summaries, sprods⟩ := sres
  dsimp only
  by_cases hdiy : upperAscii gr.category = str "DIY"
  · rw [if_pos hdiy]
    rcases he : c.perform_product_enrichment q summaries with m | prods
    · exact Or.inl ⟨_, _, _, rfl⟩
    dsimp only
    rcases hw : c.write_report q summaries gr.category prods with m | report
    · exact Or.inl ⟨_, _, _, rfl⟩
    dsimp only
    rcases ha : c.audit_report_llm q report.markdown_report with m | audit
    · exact Or.inl ⟨_, _, _, rfl⟩
    dsimp only
    by_cases hall : audit.allowed
    · simp only [hall, Bool.not_true, Bool.false_eq_true, if_false]
      rcases hm : c.send_email report e prods with m | er
      · exact Or.inl ⟨_, _, _, rfl⟩
      exact Or.inr (Or.inr ⟨_, _, _, rfl⟩)
    · simp only [Bool.not_eq_true] at hall
      simp only [hall, Bool.not_false, if_true]
      exact Or.inr (Or.inl ⟨_, _, _, rfl⟩)
  · rw [if_neg hdiy]
    dsimp only
    rcases hw : c.write_report q summaries gr.category [] with m | report
    · exact Or.inl ⟨_, _, _, rfl⟩
    dsimp only
    rcases ha : c.audit_report_llm q report.markdown_report with m | audit
    · exact Or.inl ⟨_, _, _, rfl⟩
    dsimp only
    by_cases hall : audit.allowed
    · simp only [hall, Bool.not_true, Bool.false_eq_true, if_false]
      rcases hm : c.send_email report e [] with m | er
      · exact Or.inl ⟨_, _, _, rfl⟩
      exact Or.inr (Or.inr ⟨_, _, _, rfl⟩)
    · simp only [Bool.not_eq_true] at hall
      simp only [hall, Bool.not_false, if_true]
      exact Or.inr (Or.inl ⟨_, _, _, rfl⟩)

/-- C9: for every collaborator behaviour, `run_job` runs to completion
and leaves the job in a terminal phase (`rejected`, `error` or `done`);
whenever an exception escapes the body — modelled by the body ending in
`failed` with message `m` — the single top-level handler records phase
`error` with that exception's message and `run_job` still returns
normally instead of re-raising. -/
theorem C9_never_raises (c : Collabs) (jid q e : Str) (store : StatusStore) :
    ((get_status (run_job c jid q e store).1 jid).phase = str "rejected" ∨
     (get_status (run_job c jid q e store).1 jid).phase = str "error" ∨
     (get_status (run_job c jid q e store).1 jid).phase = str "done") ∧
    (∀ s calls m, run_job_body c jid q e store = .failed s calls m →
      get_status (run_job c jid q e store).1 jid =
        ⟨str "error", some m, none⟩) := by
  constructor
  · rcases run_job_body_shape c jid q e store with
      ⟨s, calls, m, hb⟩ | ⟨st, calls, detail, hb⟩ | ⟨st, calls, payload, hb⟩
    · right; left
      simp [run_job, hb, get_status_set]
    · left
      simp [run_job, hb, get_status_set]
    · right; right
      simp [run_job, hb, get_status_set]
  · intro s calls m hb
    simp [run_job, hb, get_status_set]

/-- C9 witness: a collaborator bundle whose classifier call raises; the
job ends in phase `error` carrying that exception's message. -/
theorem C9_never_raises_witness :
    ((get_status (run_job failingCollabs (str "j2") (str "Frage")
        (str "a@b.de") []).1 (str "j2")).phase = str "rejected" ∨
     (get_status (run_job failingCollabs (str "j2") (str "Frage")
        (str "a@b.de") []).1 (str "j2")).phase = str "error" ∨
     (get_status (run_job failingCollabs (str "j2") (str "Frage")
        (str "a@b.de") []).1 (str "j2")).phase = str "done") ∧
    get_status (run_job failingCollabs (str "j2") (str "Frage")
      (str "a@b.de") []).1 (str "j2") =
      ⟨str "error", some (str "connection reset"), none⟩ := by
  have h := C9_never_raises failingCollabs (str "j2") (str "Frage")
    (str "a@b.de") []
  exact ⟨h.1, h.2 _ _ _ rfl⟩

/-- C10: the claim that the `done` payload contains the reference links
returned by the email delivery service is false: `run_job` keeps only
the links whose lower-cased text contains "bauhaus"
(src/orchestrator/pipeline.py:119-125).  Concretely, the email delivery
returns the link "https://example.com/ref", the job completes with
phase `done`, and the payload's link list is empty. -/
theorem C10_counterexample :
    happyCollabs.send_email ⟨str "# Report", some ⟨str "dump"⟩⟩
      (str "a@b.de") [] =
      .ok ⟨[str "https://example.com/ref"], some (str "Vorschau")⟩ ∧
    get_status (run_job happyCollabs (str "j3") (str "Frage")
      (str "a@b.de") []).1 (str "j3") =
      ⟨str "done", none,
       some ⟨[], some (str "Vorschau"), [], some ⟨str "dump"⟩⟩⟩ := by
  exact ⟨rfl, by rfl⟩

/-- C10 (amended): for every job that completes successfully, `run_job`
sets phase `done` with a payload containing the extracted product
records, the structured report dump when one was produced, the email
preview, and — of the reference links returned by the email delivery
service — exactly those containing the substring "bauhaus"
(case-insensitively); all other returned links are dropped. -/
theorem C10_amended (c : Collabs) (jid q e : Str) (store : StatusStore)
    (gr : InputGuardResult) (plan : List WebSearchItem)
    (summaries : List Str) (sprods prods : List ProductItem)
    (report : ReportData) (audit : OutputGuardResult) (er : EmailResult)
    (hc : c.classify_query_llm q = .ok gr)
    (hr : gr.category ≠ str "REJECT")
    (hp : c.plan_searches q = .ok plan)
    (hs : c.perform_searches plan q gr.category = .ok (summaries, sprods))
    (henr : upperAscii gr.category = str "DIY" →
      c.perform_product_enrichment q summaries = .ok prods)
    (hnod : upperAscii gr.category ≠ str "DIY" → prods = [])
    (hw : c.write_report q summaries gr.category prods = .ok report)
    (ha : c.audit_report_llm q report.markdown_report = .ok audit)
    (hall : audit.allowed = true)
    (he : c.send_email report e prods = .ok er) :
    get_status (run_job c jid q e store).1 jid =
      ⟨str "done", none,
       some ⟨er.links.filter
               (fun l => containsSub (str "bauhaus") (lowerAscii l)),
             er.html_preview, prods, report.payload⟩⟩ := by
  unfold run_job run_job_body
  rw [hc]
  dsimp only
  rw [if_neg hr, hp]
  dsimp only
  rw [hs]
  dsimp only
  by_cases hdiy : upperAscii gr.category = str "DIY"
  · rw [if_pos hdiy, henr hdiy]
    dsimp only
    rw [hw]
    dsimp only
    rw [ha]
    dsimp only
    rw [hall]
    simp only [Bool.not_true, Bool.false_eq_true, if_false]
    rw [he]
    dsimp only
    exact get_status_set ..
  · rw [if_neg hdiy]
    dsimp only
    rw [hnod hdiy] at hw he
    rw [hw]
    dsimp only
    rw [ha]
    dsimp only
    rw [hall]
    simp only [Bool.not_true, Bool.false_eq_true, if_false]
    rw [he]
    dsimp only
    rw [hnod hdiy]
    exact get_status_set ..

/-- C10 (amended) witness: the concrete completed job of the
counterexample, checked against the amended payload description. -/
theorem C10_amended_witness :
    get_status (run_job happyCollabs (str "j3") (str "Frage")
      (str "a@b.de") []).1 (str "j3") =
      ⟨str "done", none,
       some ⟨([str "https://example.com/ref"].filter
               (fun l => containsSub (str "bauhaus") (lowerAscii l))),
             some (str "Vorschau"), [], some ⟨str "dump"⟩⟩⟩ := by
  have h := C10_amended happyCollabs (str "j3") (str "Frage") (str "a@b.de")
    [] ⟨str "KI_CONTROL", [str "Meta"]⟩
    [⟨str "Vorbereitung & Planung", str "q"⟩] [str "s1"] [] []
    ⟨str "# Report", some ⟨str "dump"⟩⟩ ⟨true, []⟩
    ⟨[str "https://example.com/ref"], some (str "Vorschau")⟩
    rfl (by decide) rfl rfl (by intro hd; exact absurd hd (by decide))
    (fun _ => rfl) rfl rfl rfl rfl
  exact h

theorem splitFirst_of_not_mem (sep : Char) (l : Str) (h : sep ∉ l) :
    splitFirst sep l = (l, none) := by
  induction l with
  | nil => rfl
  | cons c cs ih =>
    have hc : ¬c = sep := fun hh => h (hh ▸ List.mem_cons_self c cs)
    simp only [splitFirst, if_neg hc, ih (fun hm => h (List.mem_cons_of_mem c hm))]

theorem splitFirst_append (sep : Char) (a b : Str) (h : sep ∉ a) :
    splitFirst sep (a ++ sep :: b) = (a, some b) := by
  induction a with
  | nil => simp [splitFirst]
  | cons c cs ih =>
    have hc : ¬c = sep := fun hh => h (hh ▸ List.mem_cons_self c cs)
    rw [List.cons_append]
    simp only [splitFirst, if_neg hc]
    rw [ih (fun hm => h (List.mem_cons_of_mem c hm))]

/-- C5: the claim that `clean_product_url` fails for every URL whose
host is neither an allow-listed domain nor a subdomain of one is false:
the code checks `host.endswith(domain)` as a plain string suffix
(src/util/url_sanitizer.py:31), so the unrelated host
"evilbauhaus.de" — not `bauhaus.de` and not `*.bauhaus.de` — is
accepted and even rewritten to the canonical `www.bauhaus.de` host. -/
theorem C5_counterexample :
    urlsplit (str "https://evilbauhaus.de/x") =
      Except.ok ⟨str "https", str "evilbauhaus.de", str "/x", [], []⟩ ∧
    clean_product_url (str "https://evilbauhaus.de/x") =
      Except.ok (str "https://www.bauhaus.de/x") ∧
    str "evilbauhaus.de" ∉ ALLOWED_BAUHAUS_DOMAINS ∧
    (ALLOWED_BAUHAUS_DOMAINS.all
      (fun d => !endsWithB ('.' :: d) (str "evilbauhaus.de"))) = true := by
  refine ⟨by rfl, by rfl, by decide, by decide⟩

/-- C5 (amended): `clean_product_url` fails for every input that is
empty or unparseable, and for every URL whose (lower-cased) host does
not end — as a plain string suffix — with one of the allow-listed
domains: whenever it returns a canonical URL, the input was non-empty,
the candidate parsed, the host was non-empty and some allow-listed
domain is a string suffix of it (so hosts like `evilbauhaus.de` pass,
which is weaker than the claimed domain/subdomain check). -/
theorem C5_amended (x y : Str) (h : clean_product_url x = .ok y) :
    pyStrip x ≠ [] ∧
    ∃ parts, urlsplit (candidateOf x) = .ok parts ∧
      parts.netloc ≠ [] ∧
      ∃ d, d ∈ ALLOWED_BAUHAUS_DOMAINS ∧
        endsWithB d (lowerAscii parts.netloc) = true := by
  unfold clean_product_url at h
  by_cases hempty : pyStrip x = []
  · rw [if_pos hempty] at h
    exact absurd h (by simp)
  rw [if_neg hempty] at h
  refine ⟨hempty, ?_⟩
  rcases hsplit : urlsplit (candidateOf x) with m | parts
  · rw [hsplit] at h
    exact absurd h (by simp)
  rw [hsplit] at h
  dsimp only at h
  refine ⟨parts, rfl, ?_⟩
  unfold cleanFromParts at h
  by_cases hn : parts.netloc = []
  · rw [if_pos hn] at h
    exact absurd h (by simp)
  rw [if_neg hn] at h
  dsimp only at h
  refine ⟨hn, ?_⟩
  rcases hfind : ALLOWED_BAUHAUS_DOMAINS.find?
      (fun d' => endsWithB d' (lowerAscii parts.netloc)) with _ | d
  · rw [hfind] at h
    exact absurd h (by simp)
  · have hd1 : d ∈ ALLOWED_BAUHAUS_DOMAINS := List.mem_of_find?_eq_some hfind
    have hd2 := List.find?_some hfind
    exact ⟨d, hd1, hd2⟩

/-- C5 (amended) witness: a genuine Bauhaus URL that succeeds, with the
suffix condition checked at the result. -/
theorem C5_amended_witness :
    pyStrip (str "https://www.bauhaus.de/x") ≠ [] ∧
    ∃ parts, urlsplit (candidateOf (str "https://www.bauhaus.de/x")) =
        Except.ok parts ∧
      parts.netloc ≠ [] ∧
      ∃ d, d ∈ ALLOWED_BAUHAUS_DOMAINS ∧
        endsWithB d (lowerAscii parts.netloc) = true :=
  C5_amended (str "https://www.bauhaus.de/x") (str "https://www.bauhaus.de/x")
    (by rfl)

theorem dedup_countP_of_seen (key : Str) :
    ∀ (l : List ShoppingItem) (seen : List Str), key ∈ seen →
      (dedupByCategory l seen).countP (fun it => categoryKey it = key) = 0 := by
  intro l
  induction l with
  | nil => intro seen _; simp [dedupByCategory]
  | cons item rest ih =>
    intro seen hseen
    by_cases hk : lowerAscii (pyStrip item.category) ∈ seen
    · simpa [dedupByCategory, hk] using ih seen hseen
    · have hne : ¬categoryKey item = key := by
        intro hh
        exact hk (by rw [categoryKey] at hh; rw [hh]; exact hseen)
      simp only [dedupByCategory, if_neg hk, List.countP_cons]
      rw [ih (lowerAscii (pyStrip item.category) :: seen)
        (List.mem_cons_of_mem _ hseen)]
      simp [hne]

theorem dedup_countP_le_one (key : Str) :
    ∀ (l : List ShoppingItem) (seen : List Str),
      (dedupByCategory l seen).countP (fun it => categoryKey it = key) ≤ 1 := by
  intro l
  induction l with
  | nil => intro seen; simp [dedupByCategory]
  | cons item rest ih =>
    intro seen
    by_cases hk : lowerAscii (pyStrip item.category) ∈ seen
    · simpa [dedupByCategory, hk] using ih seen
    · simp only [dedupByCategory, if_neg hk, List.countP_cons]
      by_cases heq : categoryKey item = key
      · rw [dedup_countP_of_seen key rest _
          (by rw [← heq, categoryKey]; exact List.mem_cons_self _ _)]
        simp [heq]
      · have hr := ih (lowerAscii (pyStrip item.category) :: seen)
        simpa [heq] using hr
  
theorem mem_dedup (it : ShoppingItem) :
    ∀ (l : List ShoppingItem) (seen : List Str),
      it ∈ dedupByCategory l seen → it ∈ l := by
  intro l
  induction l with
  | nil => intro seen h; simpa [dedupByCategory] using h
  | cons item rest ih =>
    intro seen h
    by_cases hk : lowerAscii (pyStrip item.category) ∈ seen
    · rw [dedupByCategory, if_pos hk] at h
      exact List.mem_cons_of_mem _ (ih _ h)
    · rw [dedupByCategory, if_neg hk] at h
      rcases List.mem_cons.mp h with rfl | hmem
      · exact List.mem_cons_self _ _
      · exact List.mem_cons_of_mem _ (ih _ hmem)

theorem mergeLoop_snd (ex : List (Str × ShoppingItem)) :
    ∀ (idx : Nat) (ps : List ProductItem),
      (mergeProductsLoop ex idx ps).2 = ps.map (fun p => sanitizeOr p.url) := by
  intro idx ps
  induction ps generalizing idx with
  | nil => rfl
  | cons p rest ih => simp [mergeProductsLoop, ih]

theorem mergeLoop_fst_mem (ex : List (Str × ShoppingItem)) :
    ∀ (idx : Nat) (ps : List ProductItem) (it : ShoppingItem),
      it ∈ (mergeProductsLoop ex idx ps).1 →
      ∃ p ∈ ps, it.url = some (sanitizeOr p.url) ∧
        it.category = (match ex.lookup (sanitizeOr p.url) with
          | some e => e.category
          | none => str "Material") := by
  intro idx ps
  induction ps generalizing idx with
  | nil => intro it h; simp [mergeProductsLoop] at h
  | cons p rest ih =>
    intro it h
    rw [mergeProductsLoop] at h
    rcases List.mem_cons.mp h with rfl | hmem
    · refine ⟨p, List.mem_cons_self _ _, rfl, ?_⟩
      rcases hl : ex.lookup (sanitizeOr p.url) with _ | e <;> simp [hl]
    · rcases ih (idx + 1) it hmem with ⟨p', hp', hurl, hcat⟩
      exact ⟨p', List.mem_cons_of_mem _ hp', hurl, hcat⟩

theorem keepExisting_mem (used : List Str) (items : List ShoppingItem)
    (it : ShoppingItem) (h : it ∈ keepExistingItems used items) :
    ∀ u, it.url = some u → used.contains (sanitizeOr u) = false := by
  intro u hu
  have := (List.mem_filter.mp h).2
  rw [hu] at this
  simpa using this

/-- C6: the claim that the merged output contains exactly one entry per
canonical URL is false: two pre-existing shopping items that share a
canonical URL but carry different categories both survive
`_merge_product_results` (the final dedup is keyed on the category, and
URL dedup only runs against freshly extracted records), so the output
contains two entries for that URL. -/
theorem C6_counterexample :
    itemA.url.map sanitizeOr = some (str "https://www.bauhaus.de/p") ∧
    itemB.url.map sanitizeOr = some (str "https://www.bauhaus.de/p") ∧
    itemA ≠ itemB ∧
    ((merge_product_results [itemA, itemB] []).filter
      (fun it => it.url.map sanitizeOr =
        some (str "https://www.bauhaus.de/p"))).length = 2 := by
  refine ⟨by rfl, by rfl, by decide, by rfl⟩

/-- C6 (amended): when at least one freshly extracted record normalizes
to the canonical URL `U` (and sanitization is stable on the products'
sanitized URLs), the merged output contains at most one entry whose URL
normalizes to `U`: every matching pre-existing item is displaced by the
fresh record, and all product entries for `U` share one category key, of
which the final dedup keeps at most one.  (It can be zero when an
earlier entry occupies that category key; and two pre-existing items
alone — with no fresh record for `U` — may both survive, as the
counterexample shows.) -/
theorem C6_amended (shopping : List ShoppingItem)
    (products : List ProductItem) (p : ProductItem) (hp : p ∈ products)
    (hstab : ∀ p' ∈ products,
      sanitizeOr (sanitizeOr p'.url) = sanitizeOr p'.url) :
    ((merge_product_results shopping products).filter
      (fun it => it.url.map sanitizeOr = some (sanitizeOr p.url))).length
      ≤ 1 := by
  classical
  set U := sanitizeOr p.url with hU
  set ex := buildExistingByUrl shopping with hex
  set catU : Str := (match ex.lookup U with
    | some e => e.category
    | none => str "Material") with hcatU
  set final := (mergeProductsLoop ex 1 products).1 ++
    keepExistingItems (mergeProductsLoop ex 1 products).2 shopping with hfinal
  have hkey : ∀ it ∈ merge_product_results shopping products,
      (it.url.map sanitizeOr = some U) →
      categoryKey it = lowerAscii (pyStrip catU) := by
    intro it hit hurl
    have hmem : it ∈ final := mem_dedup it final [] hit
    rcases List.mem_append.mp hmem with hprod | hkeep
    · rcases mergeLoop_fst_mem ex 1 products it hprod with ⟨p', hp', hurl', hcat⟩
      rw [hurl'] at hurl
      simp only [Option.map, Option.some.injEq] at hurl
      have hpu : sanitizeOr p'.url = U := by
        rw [← hstab p' hp']
        exact hurl
      rw [categoryKey, hcat, hpu]
    · rcases hu : it.url with _ | u
      · rw [hu] at hurl; simp at hurl
      · have hcontains := keepExisting_mem _ _ it hkeep u hu
        rw [hu] at hurl
        simp only [Option.map, Option.some.injEq] at hurl
        have hUmem : U ∈ (mergeProductsLoop ex 1 products).2 := by
          rw [mergeLoop_snd]
          exact List.mem_map.mpr ⟨p, hp, rfl⟩
        rw [hurl] at hcontains
        exfalso
        have hc2 : (mergeProductsLoop ex 1 products).2.contains U = true :=
          List.elem_eq_true_of_mem hUmem
        rw [hc2] at hcontains
        exact Bool.true_eq_false.mp hcontains
  rw [← List.countP_eq_length_filter]
  calc (merge_product_results shopping products).countP
        (fun it => it.url.map sanitizeOr = some U)
      ≤ (merge_product_results shopping products).countP
        (fun it => categoryKey it = lowerAscii (pyStrip catU)) := by
        apply List.countP_mono_left
        intro it hit hdec
        have := hkey it hit (by simpa using hdec)
        simpa using this
    _ ≤ 1 := by
        rw [merge_product_results]
        exact dedup_countP_le_one _ _ _

/-- C6 (amended) witness: the two same-URL pre-existing items of the
counterexample together with a fresh record for that URL now yield at
most one entry. -/
theorem C6_amended_witness :
    ((merge_product_results [itemA, itemB] [prodP]).filter
      (fun it => it.url.map sanitizeOr = some (sanitizeOr prodP.url))).length
      ≤ 1 :=
  C6_amended [itemA, itemB] [prodP] prodP (by decide)
    (by intro p' hp'; fin_cases hp' <;> rfl)

theorem hexVal_hexUpper : ∀ v, v < 16 → hexVal (hexUpper v) = some v := by
  decide

theorem char_toNat_range (c : Char) :
    c.toNat < 0x110000 ∧ ¬(0xD800 ≤ c.toNat ∧ c.toNat < 0xE000) := by
  have h := c.valid
  unfold UInt32.isValidChar at h
  unfold Nat.isValidChar at h
  have hh : c.toNat = c.val.toNat := rfl
  rcases h with h | h
  · exact ⟨by omega, by omega⟩
  · exact ⟨by omega, by omega⟩

theorem utf8Bytes_lt256 (n : Nat) (h : n < 0x110000) :
    ∀ b ∈ utf8Bytes n, b < 256 := by
  intro b hb
  unfold utf8Bytes at hb
  split_ifs at hb with h1 h2 h3
  · simp at hb; omega
  · simp at hb; rcases hb with rfl | rfl <;> omega
  · simp at hb; rcases hb with rfl | rfl | rfl <;> omega
  · simp at hb; rcases hb with rfl | rfl | rfl | rfl <;> omega

theorem isCont_true (b : Nat) (h : 0x80 ≤ b ∧ b < 0xC0) : isCont b = true := by
  unfold isCont
  simp only [Bool.and_eq_true, decide_eq_true_eq]
  omega

theorem utf8DecodeGo_congr :
    ∀ (f1 : Nat) (l : List Nat) (f2 : Nat), l.length ≤ f1 → l.length ≤ f2 →
      utf8DecodeGo f1 l = utf8DecodeGo f2 l := by
  intro f1
  induction f1 with
  | zero =>
    intro l f2 h1 _
    have hl : l = [] := List.eq_nil_of_length_eq_zero (Nat.le_zero.mp h1)
    subst hl
    cases f2 <;> rfl
  | succ g1 ih =>
    intro l f2 h1 h2
    cases l with
    | nil => cases f2 <;> rfl
    | cons b0 rest =>
      cases f2 with
      | zero => simp at h2
      | succ g2 =>
        rcases rest with _ | ⟨b1, _ | ⟨b2, _ | ⟨b3, r⟩⟩⟩ <;>
          (try simp only [List.length_cons, List.length_nil] at h1 h2) <;>
          simp only [utf8DecodeGo] <;>
          split_ifs <;>
          first
            | rfl
            | (congr 1
               apply ih <;> (try simp only [List.length_cons, List.length_nil]) <;>
                 omega)

theorem utf8DecodeGo_eq_all (fuel : Nat) (l : List Nat)
    (h : l.length ≤ fuel) : utf8DecodeGo fuel l = utf8DecodeAll l :=
  utf8DecodeGo_congr fuel l l.length h (Nat.le_refl _)

theorem utf8Bytes_length_le (n : Nat) : (utf8Bytes n).length ≤ 4 := by
  unfold utf8Bytes
  split_ifs <;> simp

theorem utf8DecodeAll_append_encode (n : Nat) (bs : List Nat)
    (h1 : n < 0x110000) (h2 : ¬(0xD800 ≤ n ∧ n < 0xE000)) :
    utf8DecodeAll (utf8Bytes n ++ bs) = Char.ofNat n :: utf8DecodeAll bs := by
  rw [← utf8DecodeGo_eq_all (bs.length + 4) (utf8Bytes n ++ bs) (by
    rw [List.length_append]
    have := utf8Bytes_length_le n
    omega)]
  unfold utf8Bytes
  split_ifs with ha hb hc
  · show utf8DecodeGo (bs.length + 3 + 1) (n :: bs) = _
    simp only [utf8DecodeGo]
    rw [if_pos ha, utf8DecodeGo_eq_all _ _ (by omega)]
  · show utf8DecodeGo (bs.length + 3 + 1)
      ((0xC0 + n / 64) :: (0x80 + n % 64) :: bs) = _
    simp only [utf8DecodeGo]
    rw [if_neg (by omega),
      if_pos (by omega : 0xC2 ≤ 0xC0 + n / 64 ∧ 0xC0 + n / 64 < 0xE0),
      if_pos (isCont_true _ (by omega)),
      utf8DecodeGo_eq_all _ _ (by omega)]
    have he : (0xC0 + n / 64 - 0xC0) * 64 + (0x80 + n % 64 - 0x80) = n := by
      omega
    rw [he]
  · show utf8DecodeGo (bs.length + 3 + 1)
      ((0xE0 + n / 4096) :: (0x80 + n / 64 % 64) :: (0x80 + n % 64) :: bs) = _
    simp only [utf8DecodeGo]
    rw [if_neg (by omega), if_neg (by omega),
      if_pos (by omega : 0xE0 ≤ 0xE0 + n / 4096 ∧ 0xE0 + n / 4096 < 0xF0),
      if_pos ⟨isCont_true _ (by omega), isCont_true _ (by omega),
        by omega, by omega⟩,
      utf8DecodeGo_eq_all _ _ (by omega)]
    have he : (0xE0 + n / 4096 - 0xE0) * 4096 +
        (0x80 + n / 64 % 64 - 0x80) * 64 + (0x80 + n % 64 - 0x80) = n := by
      omega
    rw [he]
  · show utf8DecodeGo (bs.length + 3 + 1)
      ((0xF0 + n / 262144) :: (0x80 + n / 4096 % 64) :: (0x80 + n / 64 % 64) ::
        (0x80 + n % 64) :: bs) = _
    simp only [utf8DecodeGo]
    rw [if_neg (by omega), if_neg (by omega), if_neg (by omega),
      if_pos (by omega : 0xF0 ≤ 0xF0 + n / 262144 ∧ 0xF0 + n / 262144 < 0xF5),
      if_pos ⟨isCont_true _ (by omega), isCont_true _ (by omega),
        isCont_true _ (by omega), by omega, by omega⟩,
      utf8DecodeGo_eq_all _ _ (by omega)]
    have he : (0xF0 + n / 262144 - 0xF0) * 262144 +
        (0x80 + n / 4096 % 64 - 0x80) * 4096 +
        (0x80 + n / 64 % 64 - 0x80) * 64 + (0x80 + n % 64 - 0x80) = n := by
      omega
    rw [he]

theorem utf8DecodeAll_encodeChar (c : Char) (bs : List Nat) :
    utf8DecodeAll (utf8Bytes c.toNat ++ bs) = c :: utf8DecodeAll bs := by
  rcases char_toNat_range c with ⟨h1, h2⟩
  rw [utf8DecodeAll_append_encode _ _ h1 h2, Char.ofNat_toNat]

theorem mem_cmap (f : α → List β) (x : β) :
    ∀ l : List α, x ∈ cmap f l ↔ ∃ a ∈ l, x ∈ f a := by
  intro l
  induction l with
  | nil => simp [cmap]
  | cons a t ih => simp [cmap, ih, List.mem_append]

theorem cmap_append (f : α → List β) (l1 l2 : List α) :
    cmap f (l1 ++ l2) = cmap f l1 ++ cmap f l2 := by
  induction l1 with
  | nil => rfl
  | cons a t ih => simp [cmap, ih]

theorem cmap_cmap (f : β → List γ) (g : α → List β) (l : List α) :
    cmap f (cmap g l) = cmap (fun a => cmap f (g a)) l := by
  induction l with
  | nil => rfl
  | cons a t ih => simp [cmap, cmap_append, ih]

theorem unquote_cons_ne (c : Char) (cs : Str) (h : c ≠ '%') :
    unquote (c :: cs) = c :: unquote cs :=
  unquote.eq_3 c cs (fun _ _ _ hc _ => h hc)

theorem unquoteRun_cons_ne (acc : List Nat) (c : Char) (cs : Str)
    (h : c ≠ '%') :
    unquoteRun acc (c :: cs) = utf8DecodeAll acc ++ c :: unquote cs :=
  unquoteRun.eq_3 acc c cs (fun _ _ _ hc _ => h hc)

theorem isPctStartB_cons_ne (c : Char) (cs : Str) (h : c ≠ '%') :
    isPctStartB (c :: cs) = false := by
  rcases cs with _ | ⟨x1, _ | ⟨x2, xs⟩⟩ <;> simp [isPctStartB, h]

theorem unquoteRun_flush (acc : List Nat) (rest : Str)
    (hrest : isPctStartB rest = false) :
    unquoteRun acc rest = utf8DecodeAll acc ++ unquote rest := by
  rcases rest with _ | ⟨c, cs⟩
  · rw [unquoteRun.eq_1, unquote.eq_1, List.append_nil]
  by_cases hperc : c = '%'
  · subst hperc
    rcases cs with _ | ⟨d1, _ | ⟨d2, cs2⟩⟩
    · rw [unquoteRun.eq_3 _ _ _ (fun _ _ _ _ h2 => by cases h2),
        unquote.eq_3 _ _ (fun _ _ _ _ h2 => by cases h2)]
    · rw [unquoteRun.eq_3 _ _ _ (fun _ _ _ _ h2 => by cases h2),
        unquote.eq_3 _ _ (fun _ _ _ _ h2 => by cases h2),
        unquote.eq_3 _ _ (fun _ _ _ _ h2 => by cases h2)]
      conv_rhs => rw [unquote.eq_3 _ _ (fun _ _ _ _ h2 => by cases h2)]
    · rw [unquoteRun.eq_2, unquote.eq_2]
      rcases hx1 : hexVal d1 with _ | v1
      · simp [hx1]
      rcases hx2 : hexVal d2 with _ | v2
      · simp [hx1, hx2]
      · exfalso
        simp [isPctStartB, hx1, hx2] at hrest
  · rw [unquoteRun_cons_ne _ _ _ hperc, unquote_cons_ne _ _ hperc]

theorem unquoteRun_pct_run :
    ∀ (bs : List Nat) (acc : List Nat) (rest : Str),
      (∀ b ∈ bs, b < 256) → isPctStartB rest = false →
      unquoteRun acc (cmap percentByte bs ++ rest) =
        utf8DecodeAll (acc ++ bs) ++ unquote rest := by
  intro bs
  induction bs with
  | nil =>
    intro acc rest _ hrest
    simp only [cmap, List.nil_append, List.append_nil]
    exact unquoteRun_flush acc rest hrest
  | cons b bs' ih =>
    intro acc rest hlt hrest
    have hb : b < 256 := hlt b (List.mem_cons_self _ _)
    show unquoteRun acc ('%' :: hexUpper (b / 16) :: hexUpper (b % 16) ::
      (cmap percentByte bs' ++ rest)) = _
    rw [unquoteRun.eq_2]
    rw [hexVal_hexUpper (b / 16) (by omega), hexVal_hexUpper (b % 16) (by omega)]
    simp only
    have hbb : b / 16 * 16 + b % 16 = b := by omega
    rw [hbb, ih (acc ++ [b]) rest (fun x hx => hlt x (List.mem_cons_of_mem _ hx)) hrest]
    rw [List.append_assoc]
    rfl

theorem mem_quoteChar (c x : Char) (h : x ∈ quoteChar c) :
    alwaysSafe x = true ∨ x = '+' ∨ x = '%' ∨ ∃ v, v < 16 ∧ x = hexUpper v := by
  unfold quoteChar at h
  split_ifs at h with h1 h2
  · rcases List.mem_singleton.mp h with rfl
    exact Or.inl h1
  · rcases List.mem_singleton.mp h with rfl
    exact Or.inr (Or.inl rfl)
  · rcases (mem_cmap percentByte x (utf8Bytes c.toNat)).mp h with ⟨b, hb, hx⟩
    have hb256 : b < 256 :=
      utf8Bytes_lt256 c.toNat (char_toNat_range c).1 b hb
    simp only [percentByte, List.mem_cons, List.not_mem_nil, or_false] at hx
    rcases hx with rfl | rfl | rfl
    · exact Or.inr (Or.inr (Or.inl rfl))
    · exact Or.inr (Or.inr (Or.inr ⟨b / 16, by omega, rfl⟩))
    · exact Or.inr (Or.inr (Or.inr ⟨b % 16, by omega, rfl⟩))

theorem not_mem_quotePlus (x : Char) (s : Str)
    (hx : alwaysSafe x = false) (hp : x ≠ '+') (hpc : x ≠ '%')
    (hh : ∀ v, v < 16 → x ≠ hexUpper v) : x ∉ quotePlus s := by
  intro hmem
  rcases (mem_cmap quoteChar x s).mp hmem with ⟨c, _, hc⟩
  rcases mem_quoteChar c x hc with h | h | h | ⟨v, hv, h⟩
  · rw [h] at hx; cases hx
  · exact hp h
  · exact hpc h
  · exact hh v hv h

theorem amp_not_mem_quotePlus (s : Str) : '&' ∉ quotePlus s :=
  not_mem_quotePlus '&' s (by decide) (by decide) (by decide) (by decide)

theorem eq_not_mem_quotePlus (s : Str) : '=' ∉ quotePlus s :=
  not_mem_quotePlus '=' s (by decide) (by decide) (by decide) (by decide)

theorem hash_not_mem_quotePlus (s : Str) : '#' ∉ quotePlus s :=
  not_mem_quotePlus '#' s (by decide) (by decide) (by decide) (by decide)

theorem qm_not_mem_quotePlus (s : Str) : '?' ∉ quotePlus s :=
  not_mem_quotePlus '?' s (by decide) (by decide) (by decide) (by decide)

theorem hexUpper_ne_plus : ∀ v, v < 16 → hexUpper v ≠ '+' := by decide

theorem map_plusToSpace_quoteChar (c : Char) :
    (quoteChar c).map plusToSpace = quoteCharM c := by
  unfold quoteChar quoteCharM
  split_ifs with h1 h2
  · have hne : c ≠ '+' := by
      intro hc
      rw [hc] at h1
      cases h1
    simp [plusToSpace, hne]
  · simp [plusToSpace]
  · have hid : ∀ x ∈ cmap percentByte (utf8Bytes c.toNat), plusToSpace x = x := by
      intro x hx
      rcases (mem_cmap percentByte x _).mp hx with ⟨b, hb, hxx⟩
      have hb256 : b < 256 :=
        utf8Bytes_lt256 c.toNat (char_toNat_range c).1 b hb
      have hxp : x ≠ '+' := by
        simp only [percentByte, List.mem_cons, List.not_mem_nil, or_false] at hxx
        rcases hxx with rfl | rfl | rfl
        · decide
        · exact hexUpper_ne_plus (b / 16) (by omega)
        · exact hexUpper_ne_plus (b % 16) (by omega)
      simp [plusToSpace, hxp]
    calc (cmap percentByte (utf8Bytes c.toNat)).map plusToSpace
        = (cmap percentByte (utf8Bytes c.toNat)).map id :=
          List.map_congr_left hid
      _ = cmap percentByte (utf8Bytes c.toNat) :=
          List.map_id _

theorem map_plusToSpace_quotePlus (s : Str) :
    (quotePlus s).map plusToSpace = cmap quoteCharM s := by
  induction s with
  | nil => rfl
  | cons c t ih =>
    show ((quoteChar c ++ quotePlus t).map plusToSpace) = _
    rw [List.map_append, map_plusToSpace_quoteChar, ih]
    rfl

theorem utf8Bytes_ne_nil (n : Nat) : utf8Bytes n ≠ [] := by
  unfold utf8Bytes
  split_ifs <;> simp

theorem utf8DecodeAll_cmap_enc (l : Str) :
    utf8DecodeAll (cmap (fun c => utf8Bytes c.toNat) l) = l := by
  induction l with
  | nil => rfl
  | cons c t ih =>
    show utf8DecodeAll (utf8Bytes c.toNat ++ cmap _ t) = _
    rw [utf8DecodeAll_encodeChar, ih]

theorem quoteCharM_pct (c : Char) (h : pctType c = true) :
    quoteCharM c = cmap percentByte (utf8Bytes c.toNat) := by
  unfold pctType at h
  simp only [Bool.and_eq_true, Bool.not_eq_true'] at h
  unfold quoteCharM
  rw [if_neg (by simp [h.1]), if_neg (by simpa using h.2)]

theorem quoteCharM_lit (c : Char) (h : pctType c = false) :
    quoteCharM c = [c] := by
  unfold quoteCharM
  by_cases h1 : alwaysSafe c = true
  · rw [if_pos h1]
  · have hsp : c = ' ' := by
      unfold pctType at h
      rcases Bool.and_eq_false_iff.mp h with hh | hh
      · rw [Bool.not_eq_false'] at hh
        exact absurd hh h1
      · rw [Bool.not_eq_false'] at hh
        simpa using hh
    subst hsp
    rw [if_neg h1, if_pos rfl]

theorem pctFalse_ne_pct (c : Char) (h : pctType c = false) : c ≠ '%' := by
  intro hc
  rw [hc] at h
  exact absurd h (by decide)

theorem cmap_quoteCharM_pref (pref : Str)
    (h : ∀ c ∈ pref, pctType c = true) :
    cmap quoteCharM pref =
      cmap percentByte (cmap (fun c => utf8Bytes c.toNat) pref) := by
  induction pref with
  | nil => rfl
  | cons c t ih =>
    show quoteCharM c ++ cmap quoteCharM t = _
    rw [quoteCharM_pct c (h c (List.mem_cons_self _ _)),
      ih (fun x hx => h x (List.mem_cons_of_mem _ hx))]
    show _ = cmap percentByte (utf8Bytes c.toNat ++ cmap _ t)
    rw [cmap_append]

theorem isPctStartB_cmap_quoteCharM (suff : Str)
    (h : suff = [] ∨ ∃ c t, suff = c :: t ∧ pctType c = false) :
    isPctStartB (cmap quoteCharM suff) = false := by
  rcases h with rfl | ⟨c, t, rfl, hc⟩
  · rfl
  · rw [show cmap quoteCharM (c :: t) = quoteCharM c ++ cmap quoteCharM t
      from rfl, quoteCharM_lit c hc, List.singleton_append]
    exact isPctStartB_cons_ne c _ (pctFalse_ne_pct c hc)

theorem unquote_cmap_quoteCharM (s : Str) :
    unquote (cmap quoteCharM s) = s := by
  suffices h : ∀ n (s : Str), s.length = n →
      unquote (cmap quoteCharM s) = s by
    exact h s.length s rfl
  intro n
  induction n using Nat.strong_induction_on with
  | _ n ih =>
    intro s hn
    rcases hpref : s.takeWhile pctType with _ | ⟨c0, pref'⟩
    · rcases s with _ | ⟨c, t⟩
      · rw [show cmap quoteCharM ([] : Str) = [] from rfl, unquote.eq_1]
      · have hc : pctType c = false := by
          by_contra hcc
          rw [Bool.not_eq_false] at hcc
          rw [List.takeWhile_cons, if_pos hcc] at hpref
          cases hpref
        rw [show cmap quoteCharM (c :: t) = quoteCharM c ++ cmap quoteCharM t
            from rfl,
          quoteCharM_lit c hc, List.singleton_append,
          unquote_cons_ne c _ (pctFalse_ne_pct c hc)]
        have ht : unquote (cmap quoteCharM t) = t := by
          apply ih t.length _ t rfl
          rw [← hn]
          simp
        rw [ht]
    · have hall : ∀ c ∈ c0 :: pref', pctType c = true := by
        intro c hm
        exact List.mem_takeWhile_imp (hpref ▸ hm)
      have hs : s = (c0 :: pref') ++ s.dropWhile pctType := by
        conv_lhs => rw [← List.takeWhile_append_dropWhile pctType s]
        rw [hpref]
      have hsuffhead : s.dropWhile pctType = [] ∨
          ∃ c t, s.dropWhile pctType = c :: t ∧ pctType c = false := by
        rcases hd : s.dropWhile pctType with _ | ⟨c, t⟩
        · exact Or.inl rfl
        · refine Or.inr ⟨c, t, rfl, ?_⟩
          have hh := List.head?_dropWhile_not pctType s
          rw [hd] at hh
          simpa using hh
      have hblt : ∀ b ∈ cmap (fun c => utf8Bytes c.toNat) (c0 :: pref'),
          b < 256 := by
        intro b hb
        rcases (mem_cmap _ b _).mp hb with ⟨c, _, hbc⟩
        exact utf8Bytes_lt256 c.toNat (char_toNat_range c).1 b hbc
      rcases hB : cmap (fun c => utf8Bytes c.toNat) (c0 :: pref') with
        _ | ⟨b0, btail⟩
      · exfalso
        have : utf8Bytes c0.toNat ++ cmap (fun c => utf8Bytes c.toNat) pref'
            = [] := hB
        exact utf8Bytes_ne_nil c0.toNat (List.append_eq_nil.mp this).1
      have hb0 : b0 < 256 := hblt b0 (hB ▸ List.mem_cons_self _ _)
      have hbtail : ∀ b ∈ btail, b < 256 := fun b hb =>
        hblt b (hB ▸ List.mem_cons_of_mem _ hb)
      conv_lhs => rw [hs, cmap_append, cmap_quoteCharM_pref _ hall, hB]
      show unquote ('%' :: hexUpper (b0 / 16) :: hexUpper (b0 % 16) ::
        (cmap percentByte btail ++ cmap quoteCharM (s.dropWhile pctType))) = _
      rw [unquote.eq_2, hexVal_hexUpper (b0 / 16) (by omega),
        hexVal_hexUpper (b0 % 16) (by omega)]
      simp only
      rw [show b0 / 16 * 16 + b0 % 16 = b0 from by omega]
      rw [unquoteRun_pct_run btail [b0] _ hbtail
        (isPctStartB_cmap_quoteCharM _ hsuffhead)]
      have hdec : utf8DecodeAll ([b0] ++ btail) = c0 :: pref' := by
        rw [show ([b0] ++ btail : List Nat) = b0 :: btail from rfl, ← hB,
          utf8DecodeAll_cmap_enc]
      have hsuffeq : unquote (cmap quoteCharM (s.dropWhile pctType)) =
          s.dropWhile pctType := by
        apply ih (s.dropWhile pctType).length _ _ rfl
        rw [← hn]
        conv_rhs => rw [hs]
        simp only [List.length_append, List.length_cons]
        omega
      rw [hdec, hsuffeq]
      exact hs.symm

theorem unquotePlus_quotePlus (s : Str) : unquotePlus (quotePlus s) = s := by
  unfold unquotePlus
  rw [show (quotePlus s).map (fun c => if c = '+' then ' ' else c) =
    (quotePlus s).map plusToSpace from rfl]
  rw [map_plusToSpace_quotePlus, unquote_cmap_quoteCharM]

theorem splitAll_ne_nil (sep : Char) : ∀ l : Str, splitAll sep l ≠ [] := by
  intro l
  induction l with
  | nil => simp [splitAll]
  | cons c cs ih =>
    rw [splitAll]
    rcases h : splitAll sep cs with _ | ⟨h1, t⟩
    · exact absurd h ih
    · by_cases hc : c = sep <;> simp [hc]

theorem splitAll_of_not_mem (sep : Char) (l : Str) (h : sep ∉ l) :
    splitAll sep l = [l] := by
  induction l with
  | nil => rfl
  | cons c cs ih =>
    have hc : ¬c = sep := fun hh => h (hh ▸ List.mem_cons_self c cs)
    rw [splitAll, ih (fun hm => h (List.mem_cons_of_mem c hm))]
    simp [hc]

theorem splitAll_append_sep (sep : Char) (p z : Str) (h : sep ∉ p) :
    splitAll sep (p ++ sep :: z) = p :: splitAll sep z := by
  induction p with
  | nil =>
    show splitAll sep (sep :: z) = [] :: splitAll sep z
    rw [splitAll]
    rcases hz : splitAll sep z with _ | ⟨h1, t⟩
    · exact absurd hz (splitAll_ne_nil sep z)
    · simp
  | cons c cs ih =>
    have hc : ¬c = sep := fun hh => h (hh ▸ List.mem_cons_self c cs)
    have ihh := ih (fun hm => h (List.mem_cons_of_mem c hm))
    show splitAll sep (c :: (cs ++ sep :: z)) = (c :: cs) :: splitAll sep z
    rw [splitAll, ihh]
    simp [hc]

theorem splitAll_joinWith (sep : Char) :
    ∀ parts : List Str, parts ≠ [] → (∀ part ∈ parts, sep ∉ part) →
      splitAll sep (joinWith [sep] parts) = parts := by
  intro parts
  induction parts with
  | nil => intro h _; exact absurd rfl h
  | cons p rest ih =>
    intro _ hparts
    rcases rest with _ | ⟨q, rest'⟩
    · exact splitAll_of_not_mem sep p (hparts p (List.mem_cons_self _ _))
    · show splitAll sep (p ++ [sep] ++ joinWith [sep] (q :: rest')) = _
      rw [List.append_assoc, List.singleton_append,
        splitAll_append_sep sep p _ (hparts p (List.mem_cons_self _ _)),
        ih (by simp) (fun part hm => hparts part (List.mem_cons_of_mem _ hm))]

theorem parse_qsl_urlencode (pairs : List (Str × Str)) :
    parse_qsl (urlencode pairs) = pairs := by
  rcases pairs with _ | ⟨p, rest⟩
  · rfl
  unfold urlencode parse_qsl
  rw [splitAll_joinWith '&' _ (by simp) (by
    intro part hpart hamp
    rcases List.mem_map.mp hpart with ⟨kv, _, rfl⟩
    rcases List.mem_append.mp hamp with hin | hin
    · exact amp_not_mem_quotePlus kv.1 hin
    · rcases List.mem_cons.mp hin with heq | hin
      · cases heq
      · exact amp_not_mem_quotePlus kv.2 hin)]
  rw [List.filterMap_map]
  rw [List.filterMap_congr (g := some) (by
    intro kv _
    have hne : quotePlus kv.1 ++ '=' :: quotePlus kv.2 ≠ [] := by
      rcases h : quotePlus kv.1 with _ | ⟨c, cs⟩ <;> simp
    simp only [Function.comp]
    rw [if_neg hne, splitFirst_append '=' _ _ (eq_not_mem_quotePlus kv.1)]
    dsimp only
    rw [unquotePlus_quotePlus, unquotePlus_quotePlus])]
  exact List.filterMap_some _

theorem char_toNat_inj {c d : Char} (h : c.toNat = d.toNat) : c = d := by
  rw [← Char.ofNat_toNat c, ← Char.ofNat_toNat d, h]

theorem char_ofNat_toNat_valid (n : Nat) (h : n.isValidChar) :
    (Char.ofNat n).toNat = n := by
  unfold Char.ofNat
  rw [dif_pos h]
  rfl

theorem toLower_toNat (c : Char) :
    (Char.toLower c).toNat =
      if 65 ≤ c.toNat ∧ c.toNat ≤ 90 then c.toNat + 32 else c.toNat := by
  unfold Char.toLower
  dsimp only
  split_ifs with h1
  · exact char_ofNat_toNat_valid _ (Or.inl (by omega))
  · rfl

theorem toLower_idem (c : Char) :
    Char.toLower (Char.toLower c) = Char.toLower c := by
  apply char_toNat_inj
  rw [toLower_toNat, toLower_toNat]
  split_ifs <;> omega

theorem lowerAscii_idem (s : Str) : lowerAscii (lowerAscii s) = lowerAscii s := by
  unfold lowerAscii
  rw [List.map_map]
  exact List.map_congr_left (fun c _ => toLower_idem c)

theorem toLower_toNat_eq_nonletter (c : Char) (m : Nat)
    (hm : m < 97 ∨ 122 < m) (h : (Char.toLower c).toNat = m) : c.toNat = m := by
  rw [toLower_toNat] at h
  split_ifs at h <;> omega

theorem isAsciiAlpha_toNat (c : Char) :
    isAsciiAlpha c = true ↔
      (97 ≤ c.toNat ∧ c.toNat ≤ 122) ∨ (65 ≤ c.toNat ∧ c.toNat ≤ 90) := by
  unfold isAsciiAlpha
  simp only [Bool.or_eq_true, Bool.and_eq_true, decide_eq_true_eq]
  exact Iff.rfl

theorem isAsciiAlpha_toLower (c : Char) (h : isAsciiAlpha c = true) :
    isAsciiAlpha (Char.toLower c) = true := by
  rw [isAsciiAlpha_toNat] at h ⊢
  rw [toLower_toNat]
  split_ifs with h1 <;> omega

theorem isSchemeChar_toNat (c : Char) :
    isSchemeChar c = true ↔
      (97 ≤ c.toNat ∧ c.toNat ≤ 122) ∨ (65 ≤ c.toNat ∧ c.toNat ≤ 90) ∨
      (48 ≤ c.toNat ∧ c.toNat ≤ 57) ∨ c.toNat = 43 ∨ c.toNat = 45 ∨
      c.toNat = 46 := by
  unfold isSchemeChar isAsciiAlpha isAsciiDigit
  simp only [Bool.or_eq_true, Bool.and_eq_true, decide_eq_true_eq]
  constructor
  · rintro (((((⟨h1, h2⟩ | ⟨h1, h2⟩) | ⟨h1, h2⟩) | rfl) | rfl) | rfl)
    · exact Or.inl ⟨h1, h2⟩
    · exact Or.inr (Or.inl ⟨h1, h2⟩)
    · exact Or.inr (Or.inr (Or.inl ⟨h1, h2⟩))
    · exact Or.inr (Or.inr (Or.inr (Or.inl rfl)))
    · exact Or.inr (Or.inr (Or.inr (Or.inr (Or.inl rfl))))
    · exact Or.inr (Or.inr (Or.inr (Or.inr (Or.inr rfl))))
  · rintro (⟨h1, h2⟩ | ⟨h1, h2⟩ | ⟨h1, h2⟩ | h | h | h)
    · exact Or.inl (Or.inl (Or.inl (Or.inl (Or.inl ⟨h1, h2⟩))))
    · exact Or.inl (Or.inl (Or.inl (Or.inl (Or.inr ⟨h1, h2⟩))))
    · exact Or.inl (Or.inl (Or.inl (Or.inr ⟨h1, h2⟩)))
    · exact Or.inl (Or.inl (Or.inr (char_toNat_inj h)))
    · exact Or.inl (Or.inr (char_toNat_inj h))
    · exact Or.inr (char_toNat_inj h)

theorem isSchemeChar_toLower (c : Char) (h : isSchemeChar c = true) :
    isSchemeChar (Char.toLower c) = true := by
  rw [isSchemeChar_toNat] at h ⊢
  rw [toLower_toNat]
  split_ifs with h1 <;> omega

theorem startsWithB_append (pat s t : Str) (h : startsWithB pat s = true) :
    startsWithB pat (s ++ t) = true := by
  induction pat generalizing s with
  | nil => rfl
  | cons p ps ih =>
    rcases s with _ | ⟨c, cs⟩
    · cases h
    · simp only [startsWithB, Bool.and_eq_true, decide_eq_true_eq] at h
      simp only [List.cons_append, startsWithB, Bool.and_eq_true,
        decide_eq_true_eq]
      exact ⟨h.1, ih cs h.2⟩

theorem startsWithB_ne_nil (pat s : Str) (hp : pat ≠ [])
    (h : startsWithB pat s = true) : s ≠ [] := by
  rcases pat with _ | ⟨p, ps⟩
  · exact absurd rfl hp
  · rcases s with _ | ⟨c, cs⟩
    · cases h
    · simp

theorem splitFirst_inv_none (sep : Char) (l a : Str)
    (h : splitFirst sep l = (a, none)) : a = l ∧ sep ∉ l := by
  induction l generalizing a with
  | nil =>
    simp only [splitFirst, Prod.mk.injEq] at h
    exact ⟨h.1.symm, List.not_mem_nil sep⟩
  | cons c cs ih =>
    by_cases hc : c = sep
    · simp [splitFirst, if_pos hc] at h
    · rcases hr : splitFirst sep cs with ⟨a1, b1⟩
      simp only [splitFirst, hr, if_neg hc, Prod.mk.injEq] at h
      obtain ⟨h1, h2⟩ := h
      obtain ⟨ha, hm⟩ := ih a1 (by rw [hr, h2])
      subst ha
      refine ⟨h1.symm, ?_⟩
      intro hmem
      rcases List.mem_cons.mp hmem with h3 | h3
      · exact hc h3.symm
      · exact hm h3

theorem splitFirst_inv_some (sep : Char) (l a b : Str)
    (h : splitFirst sep l = (a, some b)) : l = a ++ sep :: b ∧ sep ∉ a := by
  induction l generalizing a b with
  | nil => simp [splitFirst] at h
  | cons c cs ih =>
    by_cases hc : c = sep
    · simp only [splitFirst, if_pos hc, Prod.mk.injEq, Option.some.injEq] at h
      obtain ⟨rfl, rfl⟩ := h
      subst hc
      exact ⟨rfl, List.not_mem_nil c⟩
    · rcases hr : splitFirst sep cs with ⟨a1, b1⟩
      simp only [splitFirst, hr, if_neg hc, Prod.mk.injEq] at h
      obtain ⟨h1, h2⟩ := h
      obtain ⟨hl, hm⟩ := ih a1 b (by rw [hr, h2])
      subst hl
      refine ⟨by rw [← h1]; rfl, ?_⟩
      rw [← h1]
      intro hmem
      rcases List.mem_cons.mp hmem with h3 | h3
      · exact hc h3.symm
      · exact hm h3

theorem dropWhile_head_false (p : α → Bool) (l : List α) (c : α) (w : List α)
    (h : l.dropWhile p = c :: w) : p c = false := by
  induction l with
  | nil => cases h
  | cons a as ih =>
    rw [List.dropWhile_cons] at h
    split_ifs at h with hp
    · exact ih h
    · injection h with h1 h2
      subst h1
      exact Bool.eq_false_iff.mpr hp

theorem dropWhile_head_delim (l : Str) (c : Char) (w : Str)
    (h : l.dropWhile (fun c => !(c = '/' || c = '?' || c = '#')) = c :: w) :
    c = '/' ∨ c = '?' ∨ c = '#' := by
  have hf := dropWhile_head_false _ l c w h
  simp only [Bool.not_eq_false', Bool.or_eq_true, decide_eq_true_eq] at hf
  rcases hf with (h1 | h1) | h1
  exacts [Or.inl h1, Or.inr (Or.inl h1), Or.inr (Or.inr h1)]

theorem takeWhile_notDelim_props (l : Str) :
    ∀ c ∈ l.takeWhile (fun c => !(c = '/' || c = '?' || c = '#')),
      c ≠ '/' ∧ c ≠ '?' ∧ c ≠ '#' := by
  intro c hc
  have hp := List.mem_takeWhile_imp hc
  refine ⟨?_, ?_, ?_⟩ <;> rintro rfl <;> simp at hp

theorem takeWhile_append_all (p : α → Bool) (l1 l2 : List α)
    (h : ∀ x ∈ l1, p x = true) :
    (l1 ++ l2).takeWhile p = l1 ++ l2.takeWhile p ∧
    (l1 ++ l2).dropWhile p = l2.dropWhile p := by
  induction l1 with
  | nil => simp
  | cons a as ih =>
    have ha := h a (List.mem_cons_self a as)
    have := ih (fun x hx => h x (List.mem_cons_of_mem a hx))
    simp [List.cons_append, List.takeWhile_cons, List.dropWhile_cons, ha,
      this.1, this.2]

theorem mem_joinWith (sep : Str) (parts : List Str) (x : Char)
    (h : x ∈ joinWith sep parts) : x ∈ sep ∨ ∃ p ∈ parts, x ∈ p := by
  induction parts with
  | nil => cases h
  | cons p ps ih =>
    rcases ps with _ | ⟨q, rest⟩
    · exact Or.inr ⟨p, List.mem_cons_self p [], h⟩
    · rw [show joinWith sep (p :: q :: rest) =
          p ++ sep ++ joinWith sep (q :: rest) from rfl] at h
      rcases List.mem_append.mp h with h1 | h1
      · rcases List.mem_append.mp h1 with h2 | h2
        · exact Or.inr ⟨p, List.mem_cons_self p _, h2⟩
        · exact Or.inl h2
      · rcases ih h1 with h2 | ⟨r, hr, hx⟩
        · exact Or.inl h2
        · exact Or.inr ⟨r, List.mem_cons_of_mem p hr, hx⟩

theorem hash_not_mem_urlencode (pairs : List (Str × Str)) :
    '#' ∉ urlencode pairs := by
  intro hmem
  rcases mem_joinWith _ _ _ hmem with h | ⟨part, hp, hx⟩
  · simp at h
  · rcases List.mem_map.mp hp with ⟨kv, _, rfl⟩
    rcases List.mem_append.mp hx with h | h
    · exact hash_not_mem_quotePlus _ h
    · rcases List.mem_cons.mp h with h | h
      · exact absurd h (by decide)
      · exact hash_not_mem_quotePlus _ h

theorem colon_not_mem_of_schemeChars (s : Str) (h : s.all isSchemeChar = true) :
    ':' ∉ s := by
  intro hmem
  have := List.all_eq_true.mp h ':' hmem
  simp [isSchemeChar, isAsciiAlpha, isAsciiDigit] at this

theorem beq_toLower (b c : Char) (hb1 : b.toNat < 65 ∨ 90 < b.toNat)
    (hb2 : b.toNat < 97 ∨ 122 < b.toNat) :
    (b == Char.toLower c) = (b == c) := by
  by_cases hcb : c = b
  · subst hcb
    have hfix : Char.toLower c = c := by
      apply char_toNat_inj
      rw [toLower_toNat]
      split_ifs with h1 <;> omega
    rw [hfix]
  · have h1 : (b == c) = false := by
      rw [beq_eq_false_iff_ne]
      exact fun hh => hcb hh.symm
    rw [h1, beq_eq_false_iff_ne]
    intro hh
    have h2 : (Char.toLower c).toNat = b.toNat := by rw [← hh]
    rw [toLower_toNat] at h2
    split_ifs at h2 with h3
    · omega
    · exact hcb (char_toNat_inj h2.symm).symm

theorem contains_lowerAscii (l : Str) (b : Char) (hb1 : b.toNat < 65 ∨ 90 < b.toNat)
    (hb2 : b.toNat < 97 ∨ 122 < b.toNat) :
    (lowerAscii l).contains b = l.contains b := by
  induction l with
  | nil => rfl
  | cons c cs ih =>
    rw [show lowerAscii (c :: cs) = Char.toLower c :: lowerAscii cs from rfl,
      List.contains_cons, List.contains_cons, ih, beq_toLower b c hb1 hb2]

theorem lowerAscii_delim_free (l : Str)
    (h : ∀ c ∈ l, c ≠ '/' ∧ c ≠ '?' ∧ c ≠ '#') :
    ∀ c ∈ lowerAscii l, c ≠ '/' ∧ c ≠ '?' ∧ c ≠ '#' := by
  intro c hc
  rcases List.mem_map.mp hc with ⟨c0, hc0, rfl⟩
  obtain ⟨h1, h2, h3⟩ := h c0 hc0
  refine ⟨?_, ?_, ?_⟩ <;> intro heq
  · exact h1 (char_toNat_inj
      (toLower_toNat_eq_nonletter c0 47 (Or.inl (by omega)) (by rw [heq]; rfl)))
  · exact h2 (char_toNat_inj
      (toLower_toNat_eq_nonletter c0 63 (Or.inl (by omega)) (by rw [heq]; rfl)))
  · exact h3 (char_toNat_inj
      (toLower_toNat_eq_nonletter c0 35 (Or.inl (by omega)) (by rw [heq]; rfl)))

theorem tailSplit_props (t r1 r2 s1 s2 : Str)
    (hr : (match splitFirst '#' t with
      | (a, some b) => (a, b) | (a, none) => (a, ([] : Str))) = (r1, r2))
    (hs : (match splitFirst '?' r1 with
      | (a, some b) => (a, b) | (a, none) => (a, ([] : Str))) = (s1, s2)) :
    '#' ∉ s1 ∧ '?' ∉ s1 ∧ '#' ∉ s2 ∧
    (∀ c t1, t = c :: t1 → s1 = [] ∨ ∃ w, s1 = c :: w) ∧
    (t = [] → s1 = []) := by
  have hr1 : '#' ∉ r1 ∧ (∀ c t1, t = c :: t1 → r1 = [] ∨ ∃ w, r1 = c :: w) ∧
      (t = [] → r1 = []) := by
    clear hs
    rcases h1 : splitFirst '#' t with ⟨a, ob⟩
    rcases ob with _ | b
    · rw [h1] at hr
      injection hr with e1 e2
      subst e1
      subst e2
      obtain ⟨ha, hm⟩ := splitFirst_inv_none '#' t a h1
      refine ⟨by rw [ha]; exact hm, ?_, ?_⟩
      · intro c t1 ht
        refine Or.inr ⟨t1, ?_⟩
        rw [ha, ht]
      · intro ht
        rw [ha, ht]
    · rw [h1] at hr
      injection hr with e1 e2
      subst e1
      subst e2
      obtain ⟨ha, hm⟩ := splitFirst_inv_some '#' t a b h1
      refine ⟨hm, ?_, ?_⟩
      · intro c t1 ht
        rcases a with _ | ⟨c0, w⟩
        · exact Or.inl rfl
        · rw [ht, List.cons_append] at ha
          injection ha with e3 e4
          refine Or.inr ⟨w, ?_⟩
          rw [e3]
      · intro ht
        rw [ht] at ha
        rcases a with _ | ⟨c0, w⟩
        · rfl
        · cases ha
  obtain ⟨hrh, hrhead, hrnil⟩ := hr1
  clear hr
  rcases h2 : splitFirst '?' r1 with ⟨a, ob⟩
  rcases ob with _ | b
  · rw [h2] at hs
    injection hs with e1 e2
    subst e1
    subst e2
    obtain ⟨ha, hm⟩ := splitFirst_inv_none '?' r1 a h2
    refine ⟨by rw [ha]; exact hrh, by rw [ha]; exact hm, List.not_mem_nil '#',
      ?_, ?_⟩
    · intro c t1 ht
      rcases hrhead c t1 ht with h3 | ⟨w, h3⟩
      · exact Or.inl (by rw [ha, h3])
      · exact Or.inr ⟨w, by rw [ha, h3]⟩
    · intro ht
      rw [ha]
      exact hrnil ht
  · rw [h2] at hs
    injection hs with e1 e2
    subst e1
    subst e2
    obtain ⟨ha, hm⟩ := splitFirst_inv_some '?' r1 a b h2
    have hsub1 : ∀ x, x ∈ a → x ∈ r1 := fun x hx => by
      rw [ha]; exact List.mem_append.mpr (Or.inl hx)
    have hsub2 : ∀ x, x ∈ b → x ∈ r1 := fun x hx => by
      rw [ha]; exact List.mem_append.mpr (Or.inr (List.mem_cons_of_mem _ hx))
    refine ⟨fun hx => hrh (hsub1 _ hx), hm, fun hx => hrh (hsub2 _ hx), ?_, ?_⟩
    · intro c t1 ht
      rcases hrhead c t1 ht with h3 | ⟨w, h3⟩
      · rw [h3] at ha
        rcases a with _ | ⟨c0, w0⟩
        · exact Or.inl rfl
        · cases ha
      · rcases a with _ | ⟨c0, w0⟩
        · exact Or.inl rfl
        · rw [h3, List.cons_append] at ha
          injection ha with e3 e4
          refine Or.inr ⟨w0, ?_⟩
          rw [e3]
    · intro ht
      have h4 := hrnil ht
      rw [h4] at ha
      rcases a with _ | ⟨c0, w0⟩
      · rfl
      · cases ha

theorem scheme_facts (pre : Str)
    (hhead : (match pre with | c :: _ => isAsciiAlpha c | [] => false) = true)
    (hall : pre.all isSchemeChar = true) :
    (match lowerAscii pre with | c :: _ => isAsciiAlpha c | [] => false) = true ∧
    (lowerAscii pre).all isSchemeChar = true ∧
    lowerAscii (lowerAscii pre) = lowerAscii pre := by
  refine ⟨?_, ?_, lowerAscii_idem pre⟩
  · rcases pre with _ | ⟨c, cs⟩
    · cases hhead
    · rw [show lowerAscii (c :: cs) = Char.toLower c :: lowerAscii cs from rfl]
      exact isAsciiAlpha_toLower c hhead
  · show (pre.map Char.toLower).all isSchemeChar = true
    rw [List.all_map]
    exact List.all_eq_true.mpr
      (fun x hx => isSchemeChar_toLower x (List.all_eq_true.mp hall x hx))

theorem scheme_http (pre post u : Str)
    (hu : u = pre ++ ':' :: post)
    (hhttp : startsWithB (str "http") u = true) :
    lowerAscii pre ≠ [] ∧ startsWithB (str "http") (lowerAscii pre) = true := by
  have h4 : str "http" = ['h', 't', 't', 'p'] := rfl
  subst hu
  rw [h4] at hhttp
  rcases pre with _ | ⟨a, r1⟩
  · simp only [List.nil_append, startsWithB, Bool.and_eq_true,
      decide_eq_true_eq] at hhttp
    exact absurd hhttp.1 (by decide)
  rcases r1 with _ | ⟨b, r2⟩
  · simp only [List.cons_append, List.nil_append, startsWithB, Bool.and_eq_true,
      decide_eq_true_eq] at hhttp
    exact absurd hhttp.2.1 (by decide)
  rcases r2 with _ | ⟨c, r3⟩
  · simp only [List.cons_append, List.nil_append, startsWithB, Bool.and_eq_true,
      decide_eq_true_eq] at hhttp
    exact absurd hhttp.2.2.1 (by decide)
  rcases r3 with _ | ⟨d, r4⟩
  · simp only [List.cons_append, List.nil_append, startsWithB, Bool.and_eq_true,
      decide_eq_true_eq] at hhttp
    exact absurd hhttp.2.2.2.1 (by decide)
  simp only [List.cons_append, startsWithB, Bool.and_eq_true,
    decide_eq_true_eq] at hhttp
  obtain ⟨e1, e2, e3, e4, -⟩ := hhttp
  subst e1
  subst e2
  subst e3
  subst e4
  have l1 : Char.toLower 'h' = 'h' := by decide
  have l2 : Char.toLower 't' = 't' := by decide
  have l3 : Char.toLower 'p' = 'p' := by decide
  have hsh : lowerAscii ('h' :: 't' :: 't' :: 'p' :: r4) =
      'h' :: 't' :: 't' :: 'p' :: lowerAscii r4 := by
    rw [show lowerAscii ('h' :: 't' :: 't' :: 'p' :: r4) =
      Char.toLower 'h' :: Char.toLower 't' :: Char.toLower 't' ::
        Char.toLower 'p' :: lowerAscii r4 from rfl, l1, l2, l3]
  rw [hsh, h4]
  refine ⟨by simp, ?_⟩
  simp [startsWithB]

theorem urlsplit_stage2 (P1 P2 Q1 Q2 : Str) (parts : UrlParts)
    (hq : (if startsWithB (str "//") P2 = true then
        ((P2.drop 2).takeWhile (fun c => !(c = '/' || c = '?' || c = '#')),
         (P2.drop 2).dropWhile (fun c => !(c = '/' || c = '?' || c = '#')))
      else ([], P2)) = (Q1, Q2))
    (h : (if (Q1.contains '[' = true ∧ ¬Q1.contains ']' = true) ∨
        (Q1.contains ']' = true ∧ ¬Q1.contains '[' = true) then
        (Except.error (str "Invalid IPv6 URL") : Except Str UrlParts)
      else Except.ok ⟨P1, Q1,
        (match splitFirst '?' ((match splitFirst '#' Q2 with
          | (a, some b) => (a, b) | (a, none) => (a, ([] : Str))).1) with
          | (a, some b) => (a, b) | (a, none) => (a, ([] : Str))).1,
        (match splitFirst '?' ((match splitFirst '#' Q2 with
          | (a, some b) => (a, b) | (a, none) => (a, ([] : Str))).1) with
          | (a, some b) => (a, b) | (a, none) => (a, ([] : Str))).2,
        (match splitFirst '#' Q2 with
          | (a, some b) => (a, b) | (a, none) => (a, ([] : Str))).2⟩) =
      .ok parts) :
    parts.scheme = P1 ∧
    (∀ c ∈ parts.netloc, c ≠ '/' ∧ c ≠ '?' ∧ c ≠ '#') ∧
    ¬((parts.netloc.contains '[' = true ∧ ¬parts.netloc.contains ']' = true) ∨
      (parts.netloc.contains ']' = true ∧ ¬parts.netloc.contains '[' = true)) ∧
    '#' ∉ parts.path ∧ '?' ∉ parts.path ∧ '#' ∉ parts.query ∧
    (parts.netloc ≠ [] →
      parts.path = [] ∨ startsWithB (str "/") parts.path = true) ∧
    (parts.netloc ≠ [] → startsWithB (str "//") P2 = true) := by
  by_cases hq2 : startsWithB (str "//") P2 = true
  · rw [if_pos hq2] at hq
    injection hq with e1 e2
    subst e1
    subst e2
    split_ifs at h with hbr
    rcases hR : (match splitFirst '#'
        ((P2.drop 2).dropWhile (fun c => !(c = '/' || c = '?' || c = '#'))) with
        | (a, some b) => (a, b) | (a, none) => (a, ([] : Str))) with ⟨R1, R2⟩
    rw [hR] at h
    dsimp only at h
    rcases hS : (match splitFirst '?' R1 with
        | (a, some b) => (a, b) | (a, none) => (a, ([] : Str))) with ⟨S1, S2⟩
    rw [hS] at h
    dsimp only at h
    injection h with h
    subst h
    obtain ⟨t1, t2, t3, t4, t5⟩ := tailSplit_props _ R1 R2 S1 S2 hR hS
    refine ⟨rfl, takeWhile_notDelim_props _, hbr, t1, t2, t3, ?_, fun _ => hq2⟩
    intro hne
    rcases hd : (P2.drop 2).dropWhile
        (fun c => !(c = '/' || c = '?' || c = '#')) with _ | ⟨c0, w⟩
    · exact Or.inl (t5 hd)
    · rcases t4 c0 w hd with hs1 | ⟨w1, hs1⟩
      · exact Or.inl hs1
      · rcases dropWhile_head_delim _ _ _ hd with rfl | rfl | rfl
        · right
          rw [hs1]
          rfl
        · exact absurd (by rw [hs1]; exact List.mem_cons_self _ _) t2
        · exact absurd (by rw [hs1]; exact List.mem_cons_self _ _) t1
  · rw [if_neg hq2] at hq
    injection hq with e1 e2
    subst e1
    subst e2
    split_ifs at h with hbr
    rcases hR : (match splitFirst '#' P2 with
        | (a, some b) => (a, b) | (a, none) => (a, ([] : Str))) with ⟨R1, R2⟩
    rw [hR] at h
    dsimp only at h
    rcases hS : (match splitFirst '?' R1 with
        | (a, some b) => (a, b) | (a, none) => (a, ([] : Str))) with ⟨S1, S2⟩
    rw [hS] at h
    dsimp only at h
    injection h with h
    subst h
    obtain ⟨t1, t2, t3, t4, t5⟩ := tailSplit_props P2 R1 R2 S1 S2 hR hS
    exact ⟨rfl, fun c hc => absurd hc (List.not_mem_nil c), hbr, t1, t2,
      t3, fun hne => absurd rfl hne, fun hne => absurd rfl hne⟩

theorem urlsplit_ok_props (u : Str) (parts : UrlParts)
    (h : urlsplit u = .ok parts) :
    (parts.scheme ≠ [] →
      (match parts.scheme with | c :: _ => isAsciiAlpha c | [] => false) = true ∧
      parts.scheme.all isSchemeChar = true ∧
      lowerAscii parts.scheme = parts.scheme) ∧
    (∀ c ∈ parts.netloc, c ≠ '/' ∧ c ≠ '?' ∧ c ≠ '#') ∧
    ¬((parts.netloc.contains '[' = true ∧ ¬parts.netloc.contains ']' = true) ∨
      (parts.netloc.contains ']' = true ∧ ¬parts.netloc.contains '[' = true)) ∧
    '#' ∉ parts.path ∧ '?' ∉ parts.path ∧ '#' ∉ parts.query ∧
    (parts.netloc ≠ [] →
      parts.path = [] ∨ startsWithB (str "/") parts.path = true) ∧
    (parts.netloc ≠ [] → startsWithB (str "http") u = true →
      parts.scheme ≠ [] ∧ startsWithB (str "http") parts.scheme = true) := by
  unfold urlsplit at h
  rcases hsp : splitFirst ':' u with ⟨pre, post⟩
  rw [hsp] at h
  rcases post with _ | post
  · dsimp only at h
    obtain ⟨hsch, c2, c3, c4, c5, c6, c7, c8⟩ :=
      urlsplit_stage2 [] u _ _ parts rfl h
    refine ⟨fun hne => absurd hsch (by rw [← hsch] at hne ⊢; exact absurd rfl hne),
      c2, c3, c4, c5, c6, c7, ?_⟩
    intro hne hhttp
    have hq := c8 hne
    have h2 : str "//" = ['/', '/'] := rfl
    have h4 : str "http" = ['h', 't', 't', 'p'] := rfl
    rcases u with _ | ⟨c0, u0⟩
    · rw [h2] at hq
      simp [startsWithB] at hq
    · rw [h2] at hq
      rw [h4] at hhttp
      simp only [startsWithB, Bool.and_eq_true, decide_eq_true_eq] at hq hhttp
      exact absurd (hhttp.1.trans hq.1.symm) (by decide)
  · dsimp only at h
    rcases pre with _ | ⟨c0, pre0⟩
    · dsimp only at h
      try simp only [Bool.false_and] at h
      rw [if_neg (show ¬(false = true) by decide)] at h
      dsimp only at h
      obtain ⟨hsch, c2, c3, c4, c5, c6, c7, c8⟩ :=
        urlsplit_stage2 [] u _ _ parts rfl h
      refine ⟨fun hne => absurd hsch hne, c2, c3, c4, c5, c6, c7, ?_⟩
      intro hne hhttp
      have hq := c8 hne
      have h2 : str "//" = ['/', '/'] := rfl
      have h4 : str "http" = ['h', 't', 't', 'p'] := rfl
      rcases u with _ | ⟨d0, u0⟩
      · rw [h2] at hq
        simp [startsWithB] at hq
      · rw [h2] at hq
        rw [h4] at hhttp
        simp only [startsWithB, Bool.and_eq_true, decide_eq_true_eq] at hq hhttp
        exact absurd (hhttp.1.trans hq.1.symm) (by decide)
    · by_cases hcond : (isAsciiAlpha c0 && (c0 :: pre0).all isSchemeChar) = true
      · rw [if_pos hcond] at h
        dsimp only at h
        obtain ⟨hsch, c2, c3, c4, c5, c6, c7, c8⟩ :=
          urlsplit_stage2 (lowerAscii (c0 :: pre0)) post _ _ parts rfl h
        rw [Bool.and_eq_true] at hcond
        obtain ⟨hf1, hf2, hf3⟩ := scheme_facts (c0 :: pre0) hcond.1 hcond.2
        refine ⟨fun _ => by rw [hsch]; exact ⟨hf1, hf2, hf3⟩, c2, c3, c4, c5,
          c6, c7, ?_⟩
        intro hne hhttp
        obtain ⟨hu, -⟩ := splitFirst_inv_some ':' u (c0 :: pre0) post hsp
        obtain ⟨hne2, hsw⟩ := scheme_http (c0 :: pre0) post u hu hhttp
        rw [hsch]
        exact ⟨hne2, hsw⟩
      · rw [if_neg hcond] at h
        dsimp only at h
        obtain ⟨hsch, c2, c3, c4, c5, c6, c7, c8⟩ :=
          urlsplit_stage2 [] u _ _ parts rfl h
        refine ⟨fun hne => absurd hsch hne, c2, c3, c4, c5, c6, c7, ?_⟩
        intro hne hhttp
        have hq := c8 hne
        have h2 : str "//" = ['/', '/'] := rfl
        have h4 : str "http" = ['h', 't', 't', 'p'] := rfl
        rcases u with _ | ⟨d0, u0⟩
        · rw [h2] at hq
          simp [startsWithB] at hq
        · rw [h2] at hq
          rw [h4] at hhttp
          simp only [startsWithB, Bool.and_eq_true, decide_eq_true_eq] at hq hhttp
          exact absurd (hhttp.1.trans hq.1.symm) (by decide)

theorem urlunsplit_shape (P : UrlParts) (hs : P.scheme ≠ []) (hn : P.netloc ≠ [])
    (hp : P.path = [] ∨ startsWithB (str "/") P.path = true)
    (hf : P.fragment = []) :
    urlunsplit P = P.scheme ++ ':' :: '/' :: '/' ::
      (P.netloc ++
        (P.path ++ (if P.query = [] then [] else '?' :: P.query))) := by
  have h1 : (if P.path ≠ [] ∧ ¬startsWithB (str "/") P.path = true
      then '/' :: P.path else P.path) = P.path := by
    rcases hp with hp | hp
    · rw [if_neg]
      rintro ⟨hne, -⟩
      exact hne hp
    · rw [if_neg]
      rintro ⟨-, hsw⟩
      exact hsw hp
  have h2 : str "//" = ['/', '/'] := rfl
  simp only [urlunsplit]
  rw [if_pos (Or.inl hn), h1, if_pos hs, hf,
    if_neg (show ¬(([] : Str) ≠ []) from fun hh => hh rfl)]
  by_cases hq : P.query = []
  · rw [if_neg (show ¬(P.query ≠ []) from fun hh => hh hq), if_pos hq, h2]
    simp
  · rw [if_pos hq, if_neg hq, h2]
    simp [List.append_assoc]

theorem startsWith_slash_ex (l : Str) (h : startsWithB (str "/") l = true) :
    ∃ w, l = '/' :: w := by
  rcases l with _ | ⟨c, w⟩
  · rw [show str "/" = ['/'] from rfl] at h
    cases h
  · rw [show str "/" = ['/'] from rfl] at h
    simp only [startsWithB, Bool.and_eq_true, decide_eq_true_eq] at h
    exact ⟨w, by rw [← h.1]⟩

theorem urlsplit_build (Ps Pn T : Str)
    (hs_head : (match Ps with | c :: _ => isAsciiAlpha c | [] => false) = true)
    (hs_all : Ps.all isSchemeChar = true)
    (hs_low : lowerAscii Ps = Ps)
    (hn_delim : ∀ c ∈ Pn, c ≠ '/' ∧ c ≠ '?' ∧ c ≠ '#')
    (hn_br : ¬((Pn.contains '[' = true ∧ ¬Pn.contains ']' = true) ∨
        (Pn.contains ']' = true ∧ ¬Pn.contains '[' = true)))
    (hT : T = [] ∨ ∃ c w, T = c :: w ∧ (c = '/' ∨ c = '?' ∨ c = '#')) :
    urlsplit (Ps ++ ':' :: '/' :: '/' :: (Pn ++ T)) =
      .ok ⟨Ps, Pn,
        (match splitFirst '?' ((match splitFirst '#' T with
          | (a, some b) => (a, b) | (a, none) => (a, ([] : Str))).1) with
          | (a, some b) => (a, b) | (a, none) => (a, ([] : Str))).1,
        (match splitFirst '?' ((match splitFirst '#' T with
          | (a, some b) => (a, b) | (a, none) => (a, ([] : Str))).1) with
          | (a, some b) => (a, b) | (a, none) => (a, ([] : Str))).2,
        (match splitFirst '#' T with
          | (a, some b) => (a, b) | (a, none) => (a, ([] : Str))).2⟩ := by
  have hcolon : ':' ∉ Ps := colon_not_mem_of_schemeChars _ hs_all
  rcases Ps with _ | ⟨s0, ss⟩
  · exact absurd hs_head (by decide)
  have hcondp : (isAsciiAlpha s0 && (s0 :: ss).all isSchemeChar) = true := by
    rw [Bool.and_eq_true]
    exact ⟨hs_head, hs_all⟩
  unfold urlsplit
  rw [splitFirst_append ':' (s0 :: ss) _ hcolon]
  dsimp only
  rw [if_pos hcondp]
  dsimp only
  rw [hs_low]
  rw [if_pos
    (show startsWithB (str "//") ('/' :: '/' :: (Pn ++ T)) = true from rfl)]
  dsimp only
  rw [show List.drop 2 ('/' :: '/' :: (Pn ++ T)) = Pn ++ T from rfl]
  have hall : ∀ x ∈ Pn, (fun c => !(c = '/' || c = '?' || c = '#')) x = true := by
    intro x hx
    obtain ⟨h1, h2, h3⟩ := hn_delim x hx
    simp only [Bool.not_eq_true', Bool.or_eq_false_iff, decide_eq_false_iff_not]
    exact ⟨⟨h1, h2⟩, h3⟩
  obtain ⟨htw, hdw⟩ := takeWhile_append_all _ Pn T hall
  have hTtw : T.takeWhile (fun c => !(c = '/' || c = '?' || c = '#')) = [] ∧
      T.dropWhile (fun c => !(c = '/' || c = '?' || c = '#')) = T := by
    rcases hT with rfl | ⟨c, w, rfl, hc⟩
    · exact ⟨rfl, rfl⟩
    · rcases hc with rfl | rfl | rfl <;>
        exact ⟨by simp [List.takeWhile_cons], by simp [List.dropWhile_cons]⟩
  rw [htw, hTtw.1, List.append_nil, hdw, hTtw.2]
  rw [if_neg hn_br]

theorem urlsplit_urlunsplit (P : UrlParts)
    (hs_ne : P.scheme ≠ [])
    (hs_head : (match P.scheme with | c :: _ => isAsciiAlpha c | [] => false)
      = true)
    (hs_all : P.scheme.all isSchemeChar = true)
    (hs_low : lowerAscii P.scheme = P.scheme)
    (hn_ne : P.netloc ≠ [])
    (hn_delim : ∀ c ∈ P.netloc, c ≠ '/' ∧ c ≠ '?' ∧ c ≠ '#')
    (hn_br : ¬((P.netloc.contains '[' = true ∧ ¬P.netloc.contains ']' = true) ∨
        (P.netloc.contains ']' = true ∧ ¬P.netloc.contains '[' = true)))
    (hp_shape : P.path = [] ∨ startsWithB (str "/") P.path = true)
    (hp_hash : '#' ∉ P.path) (hp_qm : '?' ∉ P.path)
    (hq_hash : '#' ∉ P.query)
    (hf : P.fragment = []) :
    urlsplit (urlunsplit P) = .ok P := by
  obtain ⟨Ps, Pn, Pp, Pq, Pf⟩ := P
  replace hf : Pf = [] := hf
  subst hf
  rw [urlunsplit_shape _ hs_ne hn_ne hp_shape rfl]
  dsimp only
  by_cases hq : Pq = []
  · subst hq
    rw [if_pos rfl, List.append_nil]
    have hT1 : Pp = [] ∨
        ∃ c w, Pp = c :: w ∧ (c = '/' ∨ c = '?' ∨ c = '#') := by
      rcases hp_shape with h | h
      · exact Or.inl h
      · obtain ⟨w, hw⟩ := startsWith_slash_ex Pp h
        exact Or.inr ⟨'/', w, hw, Or.inl rfl⟩
    rw [urlsplit_build Ps Pn Pp hs_head hs_all hs_low hn_delim hn_br hT1]
    rw [splitFirst_of_not_mem '#' Pp hp_hash]
    dsimp only
    rw [splitFirst_of_not_mem '?' Pp hp_qm]
  · rw [if_neg hq]
    have hT2 : Pp ++ '?' :: Pq = [] ∨
        ∃ c w, Pp ++ '?' :: Pq = c :: w ∧ (c = '/' ∨ c = '?' ∨ c = '#') := by
      rcases hp_shape with h | h
      · rw [show Pp = ([] : Str) from h, List.nil_append]
        exact Or.inr ⟨'?', Pq, rfl, Or.inr (Or.inl rfl)⟩
      · obtain ⟨w, hw⟩ := startsWith_slash_ex Pp h
        rw [show Pp = '/' :: w from hw]
        exact Or.inr ⟨'/', w ++ '?' :: Pq, by rw [List.cons_append],
          Or.inl rfl⟩
    rw [urlsplit_build Ps Pn (Pp ++ '?' :: Pq) hs_head hs_all hs_low hn_delim
      hn_br hT2]
    have hh : '#' ∉ Pp ++ '?' :: Pq := by
      intro hm
      rcases List.mem_append.mp hm with hm | hm
      · exact hp_hash hm
      · rcases List.mem_cons.mp hm with hm | hm
        · exact absurd hm (by decide)
        · exact hq_hash hm
    rw [splitFirst_of_not_mem '#' _ hh]
    dsimp only
    rw [splitFirst_append '?' Pp Pq hp_qm]

theorem candidateOf_http (x : Str) :
    startsWithB (str "http") (candidateOf x) = true := by
  unfold candidateOf
  dsimp only
  split_ifs with h
  · exact h
  · rfl

theorem clean_ok_elim (x y : Str) (h : clean_product_url x = .ok y) :
    ∃ parts d, urlsplit (candidateOf x) = .ok parts ∧
      parts.netloc ≠ [] ∧
      ALLOWED_BAUHAUS_DOMAINS.find?
        (fun d => endsWithB d (lowerAscii parts.netloc)) = some d ∧
      y = urlunsplit ⟨parts.scheme,
        (if startsWithB (str "www.") (lowerAscii parts.netloc) = true
          then lowerAscii parts.netloc else str "www." ++ d),
        parts.path,
        urlencode ((parse_qsl parts.query).filter
          (fun kv => !is_tracking_param kv.1)),
        []⟩ := by
  unfold clean_product_url at h
  by_cases hstrip : pyStrip x = []
  · rw [if_pos hstrip] at h
    cases h
  · rw [if_neg hstrip] at h
    rcases hsp : urlsplit (candidateOf x) with m | parts
    · rw [hsp] at h
      dsimp only at h
      cases h
    · rw [hsp] at h
      dsimp only at h
      unfold cleanFromParts at h
      by_cases hnet : parts.netloc = []
      · rw [if_pos hnet] at h
        cases h
      · rw [if_neg hnet] at h
        dsimp only at h
        rcases hfind : ALLOWED_BAUHAUS_DOMAINS.find?
            (fun d => endsWithB d (lowerAscii parts.netloc)) with _ | d
        · rw [hfind] at h
          dsimp only at h
          cases h
        · rw [hfind] at h
          dsimp only at h
          injection h with h
          exact ⟨parts, d, rfl, hnet, hfind, h.symm⟩

theorem clean_fixed (P : UrlParts)
    (hs_ne : P.scheme ≠ [])
    (hs_head : (match P.scheme with | c :: _ => isAsciiAlpha c | [] => false)
      = true)
    (hs_all : P.scheme.all isSchemeChar = true)
    (hs_low : lowerAscii P.scheme = P.scheme)
    (hn_ne : P.netloc ≠ [])
    (hn_delim : ∀ c ∈ P.netloc, c ≠ '/' ∧ c ≠ '?' ∧ c ≠ '#')
    (hn_br : ¬((P.netloc.contains '[' = true ∧ ¬P.netloc.contains ']' = true) ∨
        (P.netloc.contains ']' = true ∧ ¬P.netloc.contains '[' = true)))
    (hp_shape : P.path = [] ∨ startsWithB (str "/") P.path = true)
    (hp_hash : '#' ∉ P.path) (hp_qm : '?' ∉ P.path)
    (hq_hash : '#' ∉ P.query)
    (hf : P.fragment = [])
    (hstable : pyStrip (urlunsplit P) = urlunsplit P)
    (hs_http : startsWithB (str "http") P.scheme = true)
    (hclean : cleanFromParts P = .ok (urlunsplit P)) :
    clean_product_url (urlunsplit P) = .ok (urlunsplit P) := by
  have hrt := urlsplit_urlunsplit P hs_ne hs_head hs_all hs_low hn_ne hn_delim
    hn_br hp_shape hp_hash hp_qm hq_hash hf
  have hyne : startsWithB (str "http") (urlunsplit P) = true := by
    rw [urlunsplit_shape P hs_ne hn_ne hp_shape hf]
    exact startsWithB_append _ _ _ hs_http
  have hynil : ¬ pyStrip (urlunsplit P) = [] := by
    rw [hstable]
    exact startsWithB_ne_nil (str "http") _ (by decide) hyne
  have hcand : candidateOf (urlunsplit P) = urlunsplit P := by
    unfold candidateOf
    dsimp only
    rw [hstable, if_pos hyne]
  unfold clean_product_url
  rw [if_neg hynil, hcand, hrt]
  dsimp only
  exact hclean

/-- C7 (amended): `clean_product_url` is idempotent on every success output
that is already whitespace-stripped: if `clean_product_url x = ok y` and
`y.strip() == y`, then `clean_product_url y = ok y`.  (The unamended claim
fails because the cleaned URL can carry whitespace inherited from the path,
which a second pass strips; see the counterexample.) -/
theorem C7_amended (x y : Str) (h : clean_product_url x = .ok y)
    (hstable : pyStrip y = y) : clean_product_url y = .ok y := by
  obtain ⟨parts, d, hsp, hnet, hfind, hy⟩ := clean_ok_elim x y h
  obtain ⟨p1, p2, p3, p4, p5, p6, p7, p8⟩ := urlsplit_ok_props _ parts hsp
  obtain ⟨hsne, hshttp⟩ := p8 hnet (candidateOf_http x)
  obtain ⟨hhead, hall, hlow⟩ := p1 hsne
  have hqhash := hash_not_mem_urlencode
    ((parse_qsl parts.query).filter (fun kv => !is_tracking_param kv.1))
  have hdmem : d ∈ ALLOWED_BAUHAUS_DOMAINS := List.mem_of_find?_eq_some hfind
  by_cases hw : startsWithB (str "www.") (lowerAscii parts.netloc) = true
  · rw [if_pos hw] at hy
    have hnne : lowerAscii parts.netloc ≠ [] := by
      intro hh
      exact hnet (List.map_eq_nil.mp hh)
    have hdelim := lowerAscii_delim_free parts.netloc p2
    have hbr : ¬(((lowerAscii parts.netloc).contains '[' = true ∧
        ¬(lowerAscii parts.netloc).contains ']' = true) ∨
        ((lowerAscii parts.netloc).contains ']' = true ∧
        ¬(lowerAscii parts.netloc).contains '[' = true)) := by
      rw [contains_lowerAscii parts.netloc '[' (by decide) (by decide),
        contains_lowerAscii parts.netloc ']' (by decide) (by decide)]
      exact p3
    rw [hy] at hstable ⊢
    refine clean_fixed _ hsne hhead hall hlow hnne hdelim hbr (p7 hnet) p4 p5
      hqhash rfl hstable hshttp ?_
    unfold cleanFromParts
    dsimp only
    rw [if_neg hnne, lowerAscii_idem, hfind]
    dsimp only
    rw [if_pos hw, parse_qsl_urlencode, List.filter_filter]
    simp only [Bool.and_self]
  · rw [if_neg hw] at hy
    simp only [ALLOWED_BAUHAUS_DOMAINS, List.mem_cons, List.not_mem_nil,
      or_false] at hdmem
    rw [hy] at hstable ⊢
    rcases hdmem with rfl | rfl | rfl
    · refine clean_fixed _ hsne hhead hall hlow
        (show str "www." ++ str "bauhaus.info" ≠ [] from by decide)
        (show ∀ c ∈ str "www." ++ str "bauhaus.info",
          c ≠ '/' ∧ c ≠ '?' ∧ c ≠ '#' from by decide)
        (show ¬((str "www." ++ str "bauhaus.info").contains '[' = true ∧
            ¬(str "www." ++ str "bauhaus.info").contains ']' = true ∨
            (str "www." ++ str "bauhaus.info").contains ']' = true ∧
            ¬(str "www." ++ str "bauhaus.info").contains '[' = true)
          from by decide)
        (p7 hnet) p4 p5 hqhash rfl hstable hshttp ?_
      unfold cleanFromParts
      dsimp only
      rw [if_neg (show ¬(str "www." ++ str "bauhaus.info" = []) from by decide),
        show lowerAscii (str "www." ++ str "bauhaus.info") =
          str "www." ++ str "bauhaus.info" from by decide,
        show ALLOWED_BAUHAUS_DOMAINS.find?
            (fun d => endsWithB d (str "www." ++ str "bauhaus.info")) =
          some (str "bauhaus.info") from by decide]
      dsimp only
      rw [if_pos (show startsWithB (str "www.")
          (str "www." ++ str "bauhaus.info") = true from by decide),
        parse_qsl_urlencode, List.filter_filter]
      simp only [Bool.and_self]
    · refine clean_fixed _ hsne hhead hall hlow
        (show str "www." ++ str "bauhaus.de" ≠ [] from by decide)
        (show ∀ c ∈ str "www." ++ str "bauhaus.de",
          c ≠ '/' ∧ c ≠ '?' ∧ c ≠ '#' from by decide)
        (show ¬((str "www." ++ str "bauhaus.de").contains '[' = true ∧
            ¬(str "www." ++ str "bauhaus.de").contains ']' = true ∨
            (str "www." ++ str "bauhaus.de").contains ']' = true ∧
            ¬(str "www." ++ str "bauhaus.de").contains '[' = true)
          from by decide)
        (p7 hnet) p4 p5 hqhash rfl hstable hshttp ?_
      unfold cleanFromParts
      dsimp only
      rw [if_neg (show ¬(str "www." ++ str "bauhaus.de" = []) from by decide),
        show lowerAscii (str "www." ++ str "bauhaus.de") =
          str "www." ++ str "bauhaus.de" from by decide,
        show ALLOWED_BAUHAUS_DOMAINS.find?
            (fun d => endsWithB d (str "www." ++ str "bauhaus.de")) =
          some (str "bauhaus.de") from by decide]
      dsimp only
      rw [if_pos (show startsWithB (str "www.")
          (str "www." ++ str "bauhaus.de") = true from by decide),
        parse_qsl_urlencode, List.filter_filter]
      simp only [Bool.and_self]
    · refine clean_fixed _ hsne hhead hall hlow
        (show str "www." ++ str "bauhaus.at" ≠ [] from by decide)
        (show ∀ c ∈ str "www." ++ str "bauhaus.at",
          c ≠ '/' ∧ c ≠ '?' ∧ c ≠ '#' from by decide)
        (show ¬((str "www." ++ str "bauhaus.at").contains '[' = true ∧
            ¬(str "www." ++ str "bauhaus.at").contains ']' = true ∨
            (str "www." ++ str "bauhaus.at").contains ']' = true ∧
            ¬(str "www." ++ str "bauhaus.at").contains '[' = true)
          from by decide)
        (p7 hnet) p4 p5 hqhash rfl hstable hshttp ?_
      unfold cleanFromParts
      dsimp only
      rw [if_neg (show ¬(str "www." ++ str "bauhaus.at" = []) from by decide),
        show lowerAscii (str "www." ++ str "bauhaus.at") =
          str "www." ++ str "bauhaus.at" from by decide,
        show ALLOWED_BAUHAUS_DOMAINS.find?
            (fun d => endsWithB d (str "www." ++ str "bauhaus.at")) =
          some (str "bauhaus.at") from by decide]
      dsimp only
      rw [if_pos (show startsWithB (str "www.")
          (str "www." ++ str "bauhaus.at") = true from by decide),
        parse_qsl_urlencode, List.filter_filter]
      simp only [Bool.and_self]

/-- C7 counterexample: `clean_product_url` is not idempotent as claimed.
On `"https://bauhaus.de/a #f"` the first pass keeps the trailing space of
the path (only the fragment is dropped), producing
`"https://www.bauhaus.de/a "`; a second pass `strip`s that space
(src/util/url_sanitizer.py:20) and returns a different string. -/
theorem C7_counterexample :
    clean_product_url (str "https://bauhaus.de/a #f") =
      .ok (str "https://www.bauhaus.de/a ") ∧
    clean_product_url (str "https://www.bauhaus.de/a ") =
      .ok (str "https://www.bauhaus.de/a") ∧
    str "https://www.bauhaus.de/a " ≠ str "https://www.bauhaus.de/a" := by
  exact ⟨by rfl, by rfl, by decide⟩

/-- C7 (amended) witness: the amended idempotence applied to the concrete
run `clean_product_url "https://bauhaus.de/x" = ok "https://www.bauhaus.de/x"`,
whose output is whitespace-stable. -/
theorem C7_amended_witness :
    clean_product_url (str "https://www.bauhaus.de/x") =
      .ok (str "https://www.bauhaus.de/x") :=
  C7_amended (str "https://bauhaus.de/x") (str "https://www.bauhaus.de/x")
    (by rfl) (by rfl)
